import Mathlib

/-!
Shallow embedding of `src/etl_script.py`, an ETL pipeline that joins Olist
marketplace data with an S&P 500 closing-price series and Open-Meteo
weather data, and verification of the specification's claims about it.

Modelling conventions:
* Python floats are modelled as rationals (`ℚ`); exact arithmetic stands in
  for IEEE floating point.
* Python dicts are modelled as association lists with Python's assignment
  semantics (`dictInsert`: overwrite the existing key in place, else append).
* Network effects are explicit function parameters: the yfinance history
  call becomes `fetch : String → String → Except Unit (List (String × ℚ))`
  (`Except.error ()` = the call raised), and one Open-Meteo GET attempt
  becomes `net : WParams → Nat → Option RespBody` (`none` = the attempt
  raised a network error or a non-success status in `raise_for_status`).
* A Python exception escaping a modelled function is `Except.error ()`.
* Date strings `"YYYY-MM-DD"` are kept as `String`; Python's `min`/`max`
  over them is the lexicographic `min`/`max` of `String`.
-/

namespace EtlScript

/-- `VALID_LAT_RANGE` lower bound from the source constants. -/
def VALID_LAT_LO : ℚ := -90

/-- `VALID_LAT_RANGE` upper bound from the source constants. -/
def VALID_LAT_HI : ℚ := 90

/-- `VALID_LON_RANGE` lower bound from the source constants. -/
def VALID_LON_LO : ℚ := -180

/-- `VALID_LON_RANGE` upper bound from the source constants. -/
def VALID_LON_HI : ℚ := 180

/-- `validate_coordinates(lat, lon)`: both bounds inclusive, as in the source. -/
def validate_coordinates (lat lon : ℚ) : Bool :=
  decide (VALID_LAT_LO ≤ lat) && decide (lat ≤ VALID_LAT_HI) &&
    decide (VALID_LON_LO ≤ lon) && decide (lon ≤ VALID_LON_HI)

/-- Python dict assignment `m[k] = v`: overwrite the entry in place if the key
is present, otherwise append a new entry at the end. -/
def dictInsert {κ α : Type} [DecidableEq κ] (m : List (κ × α)) (k : κ) (v : α) :
    List (κ × α) :=
  if m.any (fun p => decide (p.1 = k)) then
    m.map (fun p => if p.1 = k then (k, v) else p)
  else m ++ [(k, v)]

/-- Python dict lookup `m.get(k)` on an association list. -/
def dictGet {κ α : Type} [DecidableEq κ] (m : List (κ × α)) (k : κ) : Option α :=
  (m.find? (fun p => decide (p.1 = k))).map (fun p => p.2)

/-- Python membership test `k in m` for a dict modelled as an association list. -/
def dictHasKey {κ α : Type} [DecidableEq κ] (m : List (κ × α)) (k : κ) : Bool :=
  m.any (fun p => decide (p.1 = k))

/-! ### Market Series Fetcher (`batch_fetch_sp500`) -/

/-- Lookup `sp500_data[date]` guarded by `if date in sp500_data`; the fetched
series is the dict built from the yfinance history, so keys are unique. -/
def lookupPrice (series : List (String × ℚ)) (d : String) : Option ℚ :=
  (series.find? (fun p => decide (p.1 = d))).map (fun p => p.2)

/-- One iteration of the fill loop body: `if date in sp500_data: last_price =
sp500_data[date]`, the value then written for `date` is `last_price`. -/
def priceStep (series : List (String × ℚ)) (last : Option ℚ) (d : String) : Option ℚ :=
  match lookupPrice series d with
  | some p => some p
  | none => last

/-- The `for date in dates` loop of `batch_fetch_sp500`, threading
`last_price` (an `Option ℚ`, `none` = Python `None`) and the accumulated
`date_price_map` dict. -/
def fillLoop (series : List (String × ℚ)) :
    List String → List (String × Option ℚ) → Option ℚ → List (String × Option ℚ)
  | [], acc, _ => acc
  | d :: ds, acc, last =>
    fillLoop series ds (dictInsert acc d (priceStep series last d)) (priceStep series last d)

/-- The value of `last_price` after scanning a list of requested dates in
iteration order, starting from `last`. -/
def scanLast (series : List (String × ℚ)) (ds : List String) (last : Option ℚ) : Option ℚ :=
  ds.foldl (priceStep series) last

/-- `batch_fetch_sp500(dates)`. The yfinance call is the parameter `fetch`,
applied to `min(dates)` and `max(dates)` (the source also adds one day to the
end bound before fetching, which only widens the fetched range and is part of
the opaque `fetch`). `Except.error ()` models any raised exception, caught by
the `except` clause which returns `{}`; an empty `dates` list makes Python's
`min` raise, which the same clause also turns into `{}`. An empty fetched
history returns `{}` before the fill loop. -/
def batch_fetch_sp500 (fetch : String → String → Except Unit (List (String × ℚ)))
    (dates : List String) : List (String × Option ℚ) :=
  match dates with
  | [] => []
  | d :: ds =>
    match fetch (ds.foldl min d) (ds.foldl max d) with
    | Except.error _ => []
    | Except.ok history =>
      if history.isEmpty then []
      else fillLoop history (d :: ds) [] none

/-- The concrete series of the spec's forward-fill example. -/
def exSeries : List (String × ℚ) := [("2024-01-01", 100), ("2024-01-03", 102)]

/-! ### Dictionary lemmas -/

theorem dictGet_insert_self {κ α : Type} [DecidableEq κ] (m : List (κ × α)) (k : κ) (v : α) :
    dictGet (dictInsert m k v) k = some v := by
  by_cases h : m.any (fun p => decide (p.1 = k))
  · rw [dictInsert, if_pos h]
    induction m with
    | nil => simp at h
    | cons p t ih =>
      by_cases hp : p.1 = k
      · simp [dictGet, List.find?_cons, hp]
      · have ht : t.any (fun p => decide (p.1 = k)) := by
          simpa [List.any_cons, hp] using h
        simpa [dictGet, List.find?_cons, hp] using ih ht
  · rw [dictInsert, if_neg h]
    induction m with
    | nil => simp [dictGet]
    | cons p t ih =>
      have hp : ¬ p.1 = k := by
        intro hpk
        exact h (by simp [List.any_cons, hpk])
      have ht : ¬ t.any (fun p => decide (p.1 = k)) := by
        intro htk
        exact h (by simp [List.any_cons, htk])
      simpa [dictGet, List.find?_cons, hp] using ih ht

theorem dictGet_map_overwrite_ne {κ α : Type} [DecidableEq κ] (m : List (κ × α)) (k k' : κ)
    (v : α) (hne : k' ≠ k) :
    dictGet (m.map (fun p => if p.1 = k then (k, v) else p)) k' = dictGet m k' := by
  induction m with
  | nil => rfl
  | cons p t ih =>
    rw [List.map_cons]
    by_cases hp : p.1 = k
    · have e1 : (decide (((k, v) : κ × α).1 = k') : Bool) = false := by
        simp only [decide_eq_false_iff_not]
        exact fun hkk => hne hkk.symm
      have e2 : (decide (p.1 = k') : Bool) = false := by
        simp only [decide_eq_false_iff_not, hp]
        exact fun hkk => hne hkk.symm
      rw [if_pos hp]
      simpa only [dictGet, List.find?_cons, e1, e2] using ih
    · rw [if_neg hp]
      by_cases hq : p.1 = k'
      · have e3 : (decide (p.1 = k') : Bool) = true := by
          simp only [decide_eq_true_eq]
          exact hq
        simp only [dictGet, List.find?_cons, e3]
      · have e4 : (decide (p.1 = k') : Bool) = false := by
          simp only [decide_eq_false_iff_not]
          exact hq
        simpa only [dictGet, List.find?_cons, e4] using ih

theorem dictGet_append_single_ne {κ α : Type} [DecidableEq κ] (m : List (κ × α)) (k k' : κ)
    (v : α) (hne : k' ≠ k) :
    dictGet (m ++ [(k, v)]) k' = dictGet m k' := by
  induction m with
  | nil =>
    have h1 : ¬ ((k, v).1 = k') := fun hkk => hne hkk.symm
    simp [dictGet, List.find?_cons, h1]
  | cons p t ih =>
    by_cases hq : p.1 = k'
    · simp [dictGet, List.find?_cons, hq]
    · simpa [dictGet, List.find?_cons, hq] using ih

theorem dictGet_insert_ne {κ α : Type} [DecidableEq κ] (m : List (κ × α)) (k k' : κ) (v : α)
    (hne : k' ≠ k) : dictGet (dictInsert m k v) k' = dictGet m k' := by
  rw [dictInsert]
  by_cases h : m.any (fun p => decide (p.1 = k))
  · rw [if_pos h]
    exact dictGet_map_overwrite_ne m k k' v hne
  · rw [if_neg h]
    exact dictGet_append_single_ne m k k' v hne

theorem fillLoop_get_not_mem (series : List (String × ℚ)) (ds : List String)
    (acc : List (String × Option ℚ)) (last : Option ℚ) (d : String) (hd : d ∉ ds) :
    dictGet (fillLoop series ds acc last) d = dictGet acc d := by
  induction ds generalizing acc last with
  | nil => rfl
  | cons x t ih =>
    have hx : d ≠ x := fun hdx => hd (hdx ▸ List.mem_cons_self x t)
    have ht : d ∉ t := fun hmem => hd (List.mem_cons_of_mem x hmem)
    rw [fillLoop, ih _ _ ht, dictGet_insert_ne _ _ _ _ hx]

theorem fillLoop_get_split (series : List (String × ℚ)) (l₁ l₂ : List String) (d : String)
    (hd : d ∉ l₂) (acc : List (String × Option ℚ)) (last : Option ℚ) :
    dictGet (fillLoop series (l₁ ++ d :: l₂) acc last) d
      = some (priceStep series (scanLast series l₁ last) d) := by
  induction l₁ generalizing acc last with
  | nil =>
    rw [List.nil_append, fillLoop, fillLoop_get_not_mem series l₂ _ _ d hd,
      dictGet_insert_self]
    rfl
  | cons x t ih =>
    rw [List.cons_append, fillLoop, ih _ _]
    rfl

/-- For a non-empty fetched series, the value recorded for a requested date `d`
with no later duplicate is determined by the input-order scan of the dates
supplied before it. -/
theorem batch_fetch_sp500_get (series : List (String × ℚ)) (hs : series ≠ [])
    (l₁ l₂ : List String) (d : String) (hd : d ∉ l₂) :
    dictGet (batch_fetch_sp500 (fun _ _ => Except.ok series) (l₁ ++ d :: l₂)) d
      = some (priceStep series (scanLast series l₁ none) d) := by
  have hne : series.isEmpty = false := by
    cases series with
    | nil => exact absurd rfl hs
    | cons p t => rfl
  cases l₁ with
  | nil =>
    rw [List.nil_append]
    simp only [batch_fetch_sp500, hne, Bool.false_eq_true, if_false]
    exact fillLoop_get_split series [] l₂ d hd [] none
  | cons x t =>
    rw [List.cons_append]
    simp only [batch_fetch_sp500, hne, Bool.false_eq_true, if_false]
    exact fillLoop_get_split series (x :: t) l₂ d hd [] none

/-- Helper: if no date scanned so far has a direct entry in the series, the
carried `last_price` is still `None`. -/
theorem scanLast_all_none (series : List (String × ℚ)) (ds : List String)
    (h : ∀ x ∈ ds, lookupPrice series x = none) :
    scanLast series ds none = none := by
  induction ds with
  | nil => rfl
  | cons x t ih =>
    have hx := h x (List.mem_cons_self x t)
    have ht : ∀ y ∈ t, lookupPrice series y = none := fun y hy => h y (List.mem_cons_of_mem x hy)
    rw [scanLast, List.foldl_cons]
    have hstep : priceStep series none x = none := by rw [priceStep, hx]
    rw [hstep]
    exact ih ht

/-! ### Claim theorems for the Market Series Fetcher -/

/-- C1 counterexample: the fill is applied in input iteration order, not in
chronological order. With the spec's series {2024-01-01 ↦ 100, 2024-01-03 ↦ 102}:
supplying the dates as [03, 02, 01, 04] assigns 2024-01-02 the price 102 (the
claim demands 100); and supplying [01, 04] in ascending order assigns
2024-01-04 the price 100, although 2024-01-03 is the most recent earlier date
with a known price (the claim demands 102). -/
theorem c1_counterexample :
    dictGet (batch_fetch_sp500 (fun _ _ => Except.ok exSeries)
        ["2024-01-03", "2024-01-02", "2024-01-01", "2024-01-04"]) "2024-01-02"
      = some (some 102) ∧
    dictGet (batch_fetch_sp500 (fun _ _ => Except.ok exSeries)
        ["2024-01-01", "2024-01-04"]) "2024-01-04"
      = some (some 100) := by decide

/-- C1 (amended): for a non-empty fetched series, the result maps each
requested date to the price of the most recent requested date at or before it
in the supplied iteration order that has a direct entry in the fetched series
(`None` if there is none): the carry-forward runs over the input order and
consults only requested dates. In particular, for the spec's example series
and the four dates supplied in ascending chronological order the resulting
prices are 100, 100, 102, 102. -/
theorem c1_forward_fill_input_order (series : List (String × ℚ)) (hs : series ≠ [])
    (l₁ l₂ : List String) (d : String) (hd : d ∉ l₂) :
    dictGet (batch_fetch_sp500 (fun _ _ => Except.ok series) (l₁ ++ d :: l₂)) d
      = some (priceStep series (scanLast series l₁ none) d) ∧
    batch_fetch_sp500 (fun _ _ => Except.ok exSeries)
        ["2024-01-01", "2024-01-02", "2024-01-03", "2024-01-04"]
      = [("2024-01-01", some 100), ("2024-01-02", some 100),
         ("2024-01-03", some 102), ("2024-01-04", some 102)] :=
  ⟨batch_fetch_sp500_get series hs l₁ l₂ d hd, by decide⟩

/-- Witness for C1 (amended) at a concrete input: dates [01, 02] with the
example series; 2024-01-02 receives 100 carried forward from 2024-01-01. -/
theorem c1_forward_fill_input_order_w :
    dictGet (batch_fetch_sp500 (fun _ _ => Except.ok exSeries)
        (["2024-01-01"] ++ "2024-01-02" :: [])) "2024-01-02"
      = some (priceStep exSeries (scanLast exSeries ["2024-01-01"] none) "2024-01-02") ∧
    batch_fetch_sp500 (fun _ _ => Except.ok exSeries)
        ["2024-01-01", "2024-01-02", "2024-01-03", "2024-01-04"]
      = [("2024-01-01", some 100), ("2024-01-02", some 100),
         ("2024-01-03", some 102), ("2024-01-04", some 102)] :=
  c1_forward_fill_input_order exSeries (by decide) ["2024-01-01"] [] "2024-01-02" (by decide)

/-- C3 counterexample: a requested date earlier than the fetched series' first
entry is NOT absent from the returned mapping: for series {2024-01-03 ↦ 102}
and the single requested date 2024-01-01, the result's key set is exactly
["2024-01-01"], with that key bound to `None`. -/
theorem c3_counterexample :
    (batch_fetch_sp500 (fun _ _ => Except.ok [("2024-01-03", (102 : ℚ))])
        ["2024-01-01"]).map Prod.fst = ["2024-01-01"] ∧
    dictGet (batch_fetch_sp500 (fun _ _ => Except.ok [("2024-01-03", (102 : ℚ))])
        ["2024-01-01"]) "2024-01-01" = some none := by decide

/-- C3 (amended): for a non-empty fetched series, a requested date `d` such
that neither `d` nor any date supplied before it has a direct entry in the
fetched series (in particular, with ascending input, a date preceding the
series' first entry) IS a key of the returned mapping, but it is bound to the
absent price `None` rather than to a price. -/
theorem c3_early_date_key_bound_to_none (series : List (String × ℚ)) (hs : series ≠ [])
    (l₁ l₂ : List String) (d : String) (hd : d ∉ l₂)
    (hm : ∀ x ∈ l₁, lookupPrice series x = none) (hdm : lookupPrice series d = none) :
    dictGet (batch_fetch_sp500 (fun _ _ => Except.ok series) (l₁ ++ d :: l₂)) d
      = some none := by
  rw [batch_fetch_sp500_get series hs l₁ l₂ d hd, scanLast_all_none series l₁ hm]
  rw [priceStep, hdm]

/-- Witness for C3 (amended): series {2024-01-03 ↦ 102}, requested date
2024-01-01 — present as a key, bound to `None`. -/
theorem c3_early_date_key_bound_to_none_w :
    dictGet (batch_fetch_sp500 (fun _ _ => Except.ok [("2024-01-03", (102 : ℚ))])
        ([] ++ "2024-01-01" :: [])) "2024-01-01" = some none :=
  c3_early_date_key_bound_to_none [("2024-01-03", (102 : ℚ))] (by decide) [] []
    "2024-01-01" (by decide) (by decide) (by decide)

/-- C8: every error raised by the underlying market data source and an empty
fetched series are fully absorbed: the Market Series Fetcher returns the empty
mapping. No exception is propagated by construction: `batch_fetch_sp500` is a
total function into plain mappings (the source's `except` clause catches every
exception of the `try` block, including the `min`/`max` failure on an empty
date list, and returns `{}`). -/
theorem c8_market_errors_absorbed :
    ∀ dates : List String,
      batch_fetch_sp500 (fun _ _ => Except.error ()) dates = [] ∧
      batch_fetch_sp500 (fun _ _ => Except.ok []) dates = [] := by
  intro dates
  cases dates with
  | nil => exact ⟨rfl, rfl⟩
  | cons d ds => exact ⟨rfl, rfl⟩

/-! ### Coordinate Resolver (`process_geolocations`) -/

/-- One cleaned geolocation sample (a `LocationSample`): non-null zip prefix
and in-range coordinates are guaranteed by the upstream cleaning. -/
structure GeoRow where
  zip : String
  lat : ℚ
  lng : ℚ
  city : String
  state : String
deriving DecidableEq, Repr

/-- The samples of one `groupby('geolocation_zip_code_prefix')` group. -/
def groupRows (rows : List GeoRow) (z : String) : List GeoRow :=
  rows.filter (fun r => decide (r.zip = z))

/-- The distinct group keys of the `groupby`. (pandas emits group keys in
sorted order; the claims here are order-insensitive, so first-occurrence
deduplication is an equivalent key enumeration.) -/
def zipKeys (rows : List GeoRow) : List String :=
  (rows.map GeoRow.zip).dedup

/-- `agg({'geolocation_lat': 'mean'})` for one group. -/
def meanLat (g : List GeoRow) : ℚ := (g.map GeoRow.lat).sum / (g.length : ℚ)

/-- `agg({'geolocation_lng': 'mean'})` for one group. -/
def meanLng (g : List GeoRow) : ℚ := (g.map GeoRow.lng).sum / (g.length : ℚ)

/-- One aggregated output row of the Coordinate Resolver. -/
structure GeoAgg where
  zip : String
  lat : ℚ
  lng : ℚ
  city : String
  state : String
deriving DecidableEq, Repr

/-- The aggregated row a zip-prefix group contributes: lat/lng are the group
means, city/state come from the first sample of the group (`'first'`), and the
row is kept only if `validate_coordinates` accepts the averaged point. -/
def mkAgg (rows : List GeoRow) (z : String) : Option GeoAgg :=
  match groupRows rows z with
  | [] => none
  | r0 :: rest =>
    if validate_coordinates (meanLat (r0 :: rest)) (meanLng (r0 :: rest)) then
      some ⟨z, meanLat (r0 :: rest), meanLng (r0 :: rest), r0.city, r0.state⟩
    else none

/-- `process_geolocations(geolocations)`: group by zip prefix, average the
coordinates, take first city/state, keep only rows whose averaged coordinates
validate. Invalid averaged coordinates are silently dropped; the function is
total, so no error is ever raised. -/
def process_geolocations (rows : List GeoRow) : List GeoAgg :=
  (zipKeys rows).filterMap (mkAgg rows)

theorem mkAgg_zip (rows : List GeoRow) (z : String) (a : GeoAgg)
    (h : mkAgg rows z = some a) : a.zip = z := by
  unfold mkAgg at h
  split at h
  · exact absurd h (by simp)
  · split at h
    · cases h
      rfl
    · exact absurd h (by simp)

theorem filter_filterMap_not_mem (rows : List GeoRow) (z : String) (ks : List String)
    (hz : z ∉ ks) :
    (ks.filterMap (mkAgg rows)).filter (fun a => decide (a.zip = z)) = [] := by
  induction ks with
  | nil => rfl
  | cons k t ih =>
    have hzk : z ≠ k := fun hzk => hz (hzk ▸ List.mem_cons_self k t)
    have hzt : z ∉ t := fun hmem => hz (List.mem_cons_of_mem k hmem)
    rw [List.filterMap_cons]
    cases ha : mkAgg rows k with
    | none => exact ih hzt
    | some a =>
      have haz : (decide (a.zip = z) : Bool) = false := by
        simp only [decide_eq_false_iff_not, mkAgg_zip rows k a ha]
        exact fun hkz => hzk hkz.symm
      rw [List.filter_cons, haz]
      exact ih hzt

theorem filter_filterMap_mem (rows : List GeoRow) (z : String) (ks : List String)
    (hnd : ks.Nodup) (hz : z ∈ ks) :
    (ks.filterMap (mkAgg rows)).filter (fun a => decide (a.zip = z))
      = (mkAgg rows z).toList := by
  induction ks with
  | nil => exact absurd hz (List.not_mem_nil z)
  | cons k t ih =>
    rw [List.filterMap_cons]
    by_cases hzk : z = k
    · subst hzk
      have hzt : z ∉ t := (List.nodup_cons.mp hnd).1
      cases ha : mkAgg rows z with
      | none =>
        rw [filter_filterMap_not_mem rows z t hzt]
        rfl
      | some a =>
        have haz : (decide (a.zip = z) : Bool) = true := by
          simp only [decide_eq_true_eq]
          exact mkAgg_zip rows z a ha
        rw [List.filter_cons, haz, filter_filterMap_not_mem rows z t hzt]
        rfl
    · have hzt : z ∈ t := by
        cases List.mem_cons.mp hz with
        | inl h => exact absurd h hzk
        | inr h => exact h
      have hnd' : t.Nodup := (List.nodup_cons.mp hnd).2
      cases ha : mkAgg rows k with
      | none => exact ih hnd' hzt
      | some a =>
        have haz : (decide (a.zip = z) : Bool) = false := by
          simp only [decide_eq_false_iff_not, mkAgg_zip rows k a ha]
          exact fun hkz => hzk hkz.symm
        rw [List.filter_cons, haz]
        exact ih hnd' hzt

/-- C5: for every input sample set and every zip-prefix group with at least
one sample, the Coordinate Resolver emits exactly one output row for the group
when the averaged coordinate validates, with latitude and longitude equal to
the arithmetic means of the group's sample latitudes and longitudes; when the
averaged coordinate fails validation the group contributes no row at all (and,
`process_geolocations` being a total function, no error is raised for it). -/
theorem c5_resolver_mean_aggregation (rows : List GeoRow) (z : String)
    (h : groupRows rows z ≠ []) :
    (validate_coordinates (meanLat (groupRows rows z)) (meanLng (groupRows rows z)) = true →
      ((process_geolocations rows).filter (fun a => decide (a.zip = z))).length = 1 ∧
      ∀ a ∈ (process_geolocations rows).filter (fun a => decide (a.zip = z)),
        a.lat = meanLat (groupRows rows z) ∧ a.lng = meanLng (groupRows rows z)) ∧
    (validate_coordinates (meanLat (groupRows rows z)) (meanLng (groupRows rows z)) = false →
      (process_geolocations rows).filter (fun a => decide (a.zip = z)) = []) := by
  have hz : z ∈ zipKeys rows := by
    cases hg : groupRows rows z with
    | nil => exact absurd hg h
    | cons r0 rest =>
      have hr0 : r0 ∈ groupRows rows z := hg ▸ List.mem_cons_self r0 rest
      have hr0m : r0 ∈ rows := List.mem_of_mem_filter hr0
      have hr0z : r0.zip = z := by
        have := List.of_mem_filter hr0
        simpa using this
      have : z ∈ rows.map GeoRow.zip := hr0z ▸ List.mem_map_of_mem GeoRow.zip hr0m
      exact List.mem_dedup.mpr this
  have hkey : (process_geolocations rows).filter (fun a => decide (a.zip = z))
      = (mkAgg rows z).toList :=
    filter_filterMap_mem rows z (zipKeys rows) (List.nodup_dedup _) hz
  obtain ⟨r0, rest, hg⟩ : ∃ r0 rest, groupRows rows z = r0 :: rest := by
    cases hgg : groupRows rows z with
    | nil => exact absurd hgg h
    | cons a b => exact ⟨a, b, rfl⟩
  constructor
  · intro hv
    have hv' : validate_coordinates (meanLat (r0 :: rest)) (meanLng (r0 :: rest)) = true := by
      rw [← hg]
      exact hv
    have hmk : mkAgg rows z
        = some ⟨z, meanLat (r0 :: rest), meanLng (r0 :: rest), r0.city, r0.state⟩ := by
      simp only [mkAgg, hg, hv', if_true]
    rw [hkey, hmk]
    refine ⟨rfl, ?_⟩
    intro a ha
    have haa : a = ⟨z, meanLat (r0 :: rest), meanLng (r0 :: rest), r0.city, r0.state⟩ := by
      simpa using ha
    rw [haa, ← hg]
    exact ⟨rfl, rfl⟩
  · intro hv
    have hv' : validate_coordinates (meanLat (r0 :: rest)) (meanLng (r0 :: rest)) = false := by
      rw [← hg]
      exact hv
    have hmk : mkAgg rows z = none := by
      simp only [mkAgg, hg, hv', Bool.false_eq_true, if_false]
    rw [hkey, hmk]
    rfl

/-- Concrete sample set for the C5 witness: two samples in one group. -/
def exGeoRows : List GeoRow :=
  [⟨"01000", 10, 20, "sao paulo", "SP"⟩, ⟨"01000", 30, 40, "sao paulo", "SP"⟩]

/-- Witness for C5 at a concrete input: the single group "01000" of
`exGeoRows` has mean (20, 30), which validates, so exactly one row is output
with those means. -/
theorem c5_resolver_mean_aggregation_w :
    (validate_coordinates (meanLat (groupRows exGeoRows "01000"))
        (meanLng (groupRows exGeoRows "01000")) = true →
      ((process_geolocations exGeoRows).filter (fun a => decide (a.zip = "01000"))).length = 1 ∧
      ∀ a ∈ (process_geolocations exGeoRows).filter (fun a => decide (a.zip = "01000")),
        a.lat = meanLat (groupRows exGeoRows "01000") ∧
        a.lng = meanLng (groupRows exGeoRows "01000")) ∧
    (validate_coordinates (meanLat (groupRows exGeoRows "01000"))
        (meanLng (groupRows exGeoRows "01000")) = false →
      (process_geolocations exGeoRows).filter (fun a => decide (a.zip = "01000")) = []) :=
  c5_resolver_mean_aggregation exGeoRows "01000" (by decide)

/-! ### Weather Series Fetcher (`retry_request`, `batch_fetch_weather`) -/

/-- `retries=3` from the `retry_request` signature. -/
def RETRIES : Nat := 3

/-- `delay=5` (time units) from the `retry_request` signature. -/
def RETRY_DELAY : Nat := 5

/-- The `TIMEZONE` module constant. -/
def TIMEZONE : String := "America/Sao_Paulo"

/-- One row of the `daily` block of an Open-Meteo response: the source indexes
`time`, `temperature_2m_mean` and `precipitation_sum` by one shared position
`i`; the interface contract guarantees the three arrays are index-aligned, so
they are modelled zipped into rows. -/
structure DailyRow where
  date : String
  mean_temp : ℚ
  precipitation : ℚ
deriving DecidableEq, Repr

/-- The body of a successful (HTTP 2xx) response: `malformed` makes
`response.json()` raise, `jsonNoDaily` parses but has no `'daily'` key,
`jsonDaily` carries the daily series. -/
inductive RespBody where
  | malformed : RespBody
  | jsonNoDaily : RespBody
  | jsonDaily : List DailyRow → RespBody
deriving DecidableEq, Repr

/-- The query parameters of one Open-Meteo range request, as built in
`batch_fetch_weather`. -/
structure WParams where
  latitude : ℚ
  longitude : ℚ
  start_date : String
  end_date : String
  timezone : String
deriving DecidableEq, Repr

/-- The `for attempt in range(retries)` loop of `retry_request`: `call a` is
attempt number `a` (`none` = `requests.get`/`raise_for_status` raised). The
result is extended with instrumentation: (response, number of call attempts
made, total time slept). Each failed attempt is followed by
`time.sleep(delay)`, including the last one. -/
def retryFrom (call : Nat → Option RespBody) (delay : Nat) :
    Nat → Nat → Option RespBody × Nat × Nat
  | _, 0 => (none, 0, 0)
  | a, k + 1 =>
    match call a with
    | some r => (some r, 1, 0)
    | none =>
      let rest := retryFrom call delay (a + 1) k
      (rest.1, rest.2.1 + 1, rest.2.2 + delay)

/-- `retry_request(url, params, retries, delay)`; the url/params pair is
already applied inside `call`. -/
def retry_request (call : Nat → Option RespBody) (retries delay : Nat) :
    Option RespBody × Nat × Nat :=
  retryFrom call delay 0 retries

/-- `location_groups[(lat, lon)].append(date)` on a `defaultdict(list)`:
append to the group if the coordinate already has one, else create it at the
end (insertion order). -/
def addGroup (gs : List ((ℚ × ℚ) × List String)) (c : ℚ × ℚ) (d : String) :
    List ((ℚ × ℚ) × List String) :=
  if gs.any (fun g => decide (g.1 = c)) then
    gs.map (fun g => if g.1 = c then (g.1, g.2 ++ [d]) else g)
  else gs ++ [(c, [d])]

/-- The grouping loop of `batch_fetch_weather`: requests grouped by exact
coordinate pair. -/
def location_groups (location_dates : List ((ℚ × ℚ) × String)) :
    List ((ℚ × ℚ) × List String) :=
  location_dates.foldl (fun gs cd => addGroup gs cd.1 cd.2) []

/-- The params dict built for one coordinate group: `start_date = min(dates)`,
`end_date = max(dates)`, both daily metrics, the module time zone. -/
def groupParams (c : ℚ × ℚ) (d0 : String) (ds : List String) : WParams :=
  ⟨c.1, c.2, ds.foldl min d0, ds.foldl max d0, TIMEZONE⟩

/-- The weather values recorded for one resolved (coordinate, date) key. -/
structure WeatherVal where
  mean_temp : ℚ
  precipitation : ℚ
deriving DecidableEq, Repr

/-- The response walk of `batch_fetch_weather`: for each daily row whose date
is in the group's requested date list, write
`weather_data[(lat, lon, date)] = {...}`. -/
def recordRows (acc : List ((ℚ × ℚ × String) × WeatherVal)) (c : ℚ × ℚ)
    (dates : List String) (rows : List DailyRow) :
    List ((ℚ × ℚ × String) × WeatherVal) :=
  rows.foldl
    (fun a r =>
      if r.date ∈ dates then dictInsert a (c.1, c.2, r.date) ⟨r.mean_temp, r.precipitation⟩
      else a)
    acc

/-- The per-group loop of `batch_fetch_weather`. Alongside the weather dict it
accumulates an instrumentation log with one entry per issued group request:
(params, attempts made, time slept). An invalid coordinate skips the group
before any call (`continue`). A `none` retry result (`if response:` falsy) and
a body without `'daily'` record nothing; a malformed body makes
`response.json()` raise, which nothing in the source catches: the whole
fetcher aborts with that exception (`Except.error ()`). The empty-dates case
cannot arise (groups are created with one date); it is mapped to a skip. -/
def weatherGo (net : WParams → Nat → Option RespBody) :
    List ((ℚ × ℚ) × List String) → List ((ℚ × ℚ × String) × WeatherVal) →
    List (WParams × Nat × Nat) →
    Except Unit (List ((ℚ × ℚ × String) × WeatherVal) × List (WParams × Nat × Nat))
  | [], acc, log => Except.ok (acc, log)
  | (c, dates) :: rest, acc, log =>
    if validate_coordinates c.1 c.2 then
      match dates with
      | [] => weatherGo net rest acc log
      | d0 :: ds =>
        match retry_request (net (groupParams c d0 ds)) RETRIES RETRY_DELAY with
        | (none, att, sl) => weatherGo net rest acc (log ++ [(groupParams c d0 ds, att, sl)])
        | (some RespBody.malformed, _, _) => Except.error ()
        | (some RespBody.jsonNoDaily, att, sl) =>
          weatherGo net rest acc (log ++ [(groupParams c d0 ds, att, sl)])
        | (some (RespBody.jsonDaily rows), att, sl) =>
          weatherGo net rest (recordRows acc c dates rows)
            (log ++ [(groupParams c d0 ds, att, sl)])
    else weatherGo net rest acc log

/-- `batch_fetch_weather(location_dates)` with the network as a parameter:
`net p a` is the outcome of attempt `a` of the request with params `p`. -/
def batch_fetch_weather (net : WParams → Nat → Option RespBody)
    (location_dates : List ((ℚ × ℚ) × String)) :
    Except Unit (List ((ℚ × ℚ × String) × WeatherVal) × List (WParams × Nat × Nat)) :=
  weatherGo net (location_groups location_dates) [] []

/-! ### Retry lemmas -/

theorem retryFrom_attempts_le (call : Nat → Option RespBody) (delay : Nat) (k a : Nat) :
    (retryFrom call delay a k).2.1 ≤ k := by
  induction k generalizing a with
  | zero => exact Nat.le_refl 0
  | succ n ih =>
    rw [retryFrom]
    cases call a with
    | some r => exact Nat.succ_le_succ (Nat.zero_le n)
    | none => exact Nat.succ_le_succ (ih (a + 1))

theorem retryFrom_none_counts (call : Nat → Option RespBody) (delay : Nat) (k a : Nat)
    (h : (retryFrom call delay a k).1 = none) :
    (retryFrom call delay a k).2.1 = k ∧ (retryFrom call delay a k).2.2 = k * delay := by
  induction k generalizing a with
  | zero => exact ⟨rfl, (Nat.zero_mul delay).symm⟩
  | succ n ih =>
    rw [retryFrom] at h ⊢
    cases hc : call a with
    | some r =>
      rw [hc] at h
      exact absurd h (by simp)
    | none =>
      rw [hc] at h
      dsimp only at h ⊢
      obtain ⟨h1, h2⟩ := ih (a + 1) h
      refine ⟨?_, ?_⟩
      · rw [h1]
      · rw [h2, Nat.succ_mul]

theorem retryFrom_some_attempts_pos (call : Nat → Option RespBody) (delay : Nat) (k a : Nat)
    (r : RespBody) (h : (retryFrom call delay a k).1 = some r) :
    1 ≤ (retryFrom call delay a k).2.1 := by
  induction k generalizing a with
  | zero => exact absurd h (by simp [retryFrom])
  | succ n ih =>
    rw [retryFrom] at h ⊢
    cases hc : call a with
    | some r' => exact Nat.le_refl 1
    | none =>
      dsimp only
      exact Nat.succ_le_succ (Nat.zero_le _)

theorem retryFrom_some_sleeps (call : Nat → Option RespBody) (delay : Nat) (k a : Nat)
    (r : RespBody) (h : (retryFrom call delay a k).1 = some r) :
    (retryFrom call delay a k).2.2 = delay * ((retryFrom call delay a k).2.1 - 1) := by
  induction k generalizing a with
  | zero => exact absurd h (by simp [retryFrom])
  | succ n ih =>
    rw [retryFrom] at h ⊢
    cases hc : call a with
    | some r' => simp
    | none =>
      rw [hc] at h
      dsimp only at h ⊢
      have hs := ih (a + 1) h
      have hpos : 1 ≤ (retryFrom call delay (a + 1) n).2.1 := by
        have h' : (retryFrom call delay (a + 1) n).1 = some r := h
        exact retryFrom_some_attempts_pos call delay n (a + 1) r h'
      obtain ⟨b, hb⟩ := Nat.exists_eq_add_of_le hpos
      rw [hs, hb]
      simp only [Nat.add_sub_cancel_left, Nat.add_sub_cancel]
      ring

/-- Two failures then a success: three attempts, two sleeps. -/
theorem retry_request_two_failures (call : Nat → Option RespBody) (r : RespBody)
    (h0 : call 0 = none) (h1 : call 1 = none) (h2 : call 2 = some r) :
    retry_request call RETRIES RETRY_DELAY = (some r, 3, 10) := by
  simp [retry_request, RETRIES, RETRY_DELAY, retryFrom, h0, h1, h2]

/-- All attempts fail: three attempts, three sleeps, no response. -/
theorem retry_request_all_failures (call : Nat → Option RespBody)
    (h : ∀ i, call i = none) :
    retry_request call RETRIES RETRY_DELAY = (none, 3, 15) := by
  simp [retry_request, RETRIES, RETRY_DELAY, retryFrom, h 0, h 1, h 2]

/-! ### Key-set lemmas for the weather dict -/

theorem anyKey_map_overwrite {κ α : Type} [DecidableEq κ] (m : List (κ × α)) (k k' : κ)
    (v : α) :
    ((m.map (fun p => if p.1 = k then (k, v) else p)).any (fun p => decide (p.1 = k')))
      = m.any (fun p => decide (p.1 = k')) := by
  induction m with
  | nil => rfl
  | cons p t ih =>
    rw [List.map_cons, List.any_cons, List.any_cons, ih]
    by_cases hp : p.1 = k
    · rw [if_pos hp, hp]
    · rw [if_neg hp]

theorem dictHasKey_insert {κ α : Type} [DecidableEq κ] (m : List (κ × α)) (k k' : κ) (v : α) :
    dictHasKey (dictInsert m k v) k' = true ↔ (k' = k ∨ dictHasKey m k' = true) := by
  rw [dictInsert]
  by_cases h : m.any (fun p => decide (p.1 = k))
  · rw [if_pos h]
    unfold dictHasKey
    rw [anyKey_map_overwrite]
    constructor
    · exact Or.inr
    · rintro (rfl | hm)
      · exact h
      · exact hm
  · rw [if_neg h]
    unfold dictHasKey
    simp only [List.any_append, List.any_cons, List.any_nil, Bool.or_false, Bool.or_eq_true,
      decide_eq_true_eq]
    constructor
    · rintro (hm | hk)
      · exact Or.inr hm
      · exact Or.inl hk.symm
    · rintro (hk | hm)
      · exact Or.inr hk.symm
      · exact Or.inl hm

theorem recordRows_hasKey (c : ℚ × ℚ) (dates : List String) (rows : List DailyRow)
    (acc : List ((ℚ × ℚ × String) × WeatherVal)) (k : ℚ × ℚ × String) :
    dictHasKey (recordRows acc c dates rows) k = true ↔
      (dictHasKey acc k = true ∨ ∃ r ∈ rows, r.date ∈ dates ∧ k = (c.1, c.2, r.date)) := by
  induction rows generalizing acc with
  | nil => simp [recordRows]
  | cons r rest ih =>
    have hstep : recordRows acc c dates (r :: rest)
        = recordRows
            (if r.date ∈ dates then
              dictInsert acc (c.1, c.2, r.date) ⟨r.mean_temp, r.precipitation⟩
            else acc) c dates rest := by
      rw [recordRows, recordRows, List.foldl_cons]
    rw [hstep, ih]
    by_cases hr : r.date ∈ dates
    · rw [if_pos hr]
      rw [dictHasKey_insert]
      constructor
      · rintro ((rfl | hacc) | hrest)
        · exact Or.inr ⟨r, List.mem_cons_self r rest, hr, rfl⟩
        · exact Or.inl hacc
        · obtain ⟨r', hr', hd', hk'⟩ := hrest
          exact Or.inr ⟨r', List.mem_cons_of_mem r hr', hd', hk'⟩
      · rintro (hacc | hex)
        · exact Or.inl (Or.inr hacc)
        · obtain ⟨r', hr', hd', hk'⟩ := hex
          cases List.mem_cons.mp hr' with
          | inl hrr => exact Or.inl (Or.inl (by rw [hk', hrr]))
          | inr hrr => exact Or.inr ⟨r', hrr, hd', hk'⟩
    · rw [if_neg hr]
      constructor
      · rintro (hacc | hrest)
        · exact Or.inl hacc
        · obtain ⟨r', hr', hd', hk'⟩ := hrest
          exact Or.inr ⟨r', List.mem_cons_of_mem r hr', hd', hk'⟩
      · rintro (hacc | hex)
        · exact Or.inl hacc
        · obtain ⟨r', hr', hd', hk'⟩ := hex
          cases List.mem_cons.mp hr' with
          | inl hrr => exact absurd (hrr ▸ hd') hr
          | inr hrr => exact Or.inr ⟨r', hrr, hd', hk'⟩

/-! ### Grouping lemmas -/

theorem location_groups_aux (c : ℚ × ℚ) (ds : List String) (l : List String) :
    (ds.map (fun d => (c, d))).foldl (fun gs cd => addGroup gs cd.1 cd.2) [(c, l)]
      = [(c, l ++ ds)] := by
  induction ds generalizing l with
  | nil => rw [List.map_nil, List.foldl_nil, List.append_nil]
  | cons d t ih =>
    rw [List.map_cons, List.foldl_cons]
    dsimp only
    have hstep : addGroup [(c, l)] c d = [(c, l ++ [d])] := by
      simp [addGroup]
    rw [hstep, ih, List.append_assoc]
    rfl

theorem location_groups_single (c : ℚ × ℚ) (d0 : String) (ds : List String) :
    location_groups ((d0 :: ds).map (fun d => (c, d))) = [(c, d0 :: ds)] := by
  rw [List.map_cons, location_groups, List.foldl_cons]
  dsimp only
  have h0 : addGroup [] c d0 = [(c, [d0])] := rfl
  rw [h0, location_groups_aux c ds [d0]]
  rfl

/-! ### Claim theorems for the Weather Series Fetcher retry behavior -/

/-- C2 counterexample: a successful (2xx) response whose body is malformed is
NOT a retried failure: `response.json()` is called outside every try block, so
the exception crosses the Weather Series Fetcher's boundary (after a single
call attempt, not three), contradicting the claim that a malformed response
body is absorbed by the retry loop with no exception escaping. -/
theorem c2_counterexample :
    batch_fetch_weather (fun _ _ => some RespBody.malformed) [((0, 0), "2024-01-01")]
      = Except.error () := rfl

/-- C2 (amended): for every weather request the fetch makes at most 3 call
attempts, with a fixed 5-unit sleep after each failed attempt (15 units when
all three fail, 5 × (attempts − 1) when one succeeds), where a failed attempt
is a network error or a non-success status; if the first two attempts fail
and the third succeeds with a well-formed daily body, the coordinate group
yields its data after exactly 3 attempts; if all 3 attempts fail, that group
contributes no entries and no exception crosses the fetcher's boundary. (A
malformed body on a successful response is not retried: it raises out of the
fetcher — see the counterexample.) -/
theorem c2_retry_bounded_and_absorbing (net : WParams → Nat → Option RespBody)
    (c : ℚ × ℚ) (d0 : String) (ds : List String)
    (hv : validate_coordinates c.1 c.2 = true) :
    ((retry_request (net (groupParams c d0 ds)) RETRIES RETRY_DELAY).2.1 ≤ 3) ∧
    ((retry_request (net (groupParams c d0 ds)) RETRIES RETRY_DELAY).1 = none →
      (retry_request (net (groupParams c d0 ds)) RETRIES RETRY_DELAY).2 = (3, 15)) ∧
    (∀ r, (retry_request (net (groupParams c d0 ds)) RETRIES RETRY_DELAY).1 = some r →
      (retry_request (net (groupParams c d0 ds)) RETRIES RETRY_DELAY).2.2
        = RETRY_DELAY * ((retry_request (net (groupParams c d0 ds)) RETRIES RETRY_DELAY).2.1 - 1)) ∧
    (∀ rows, net (groupParams c d0 ds) 0 = none → net (groupParams c d0 ds) 1 = none →
      net (groupParams c d0 ds) 2 = some (RespBody.jsonDaily rows) →
      batch_fetch_weather net ((d0 :: ds).map (fun d => (c, d)))
          = Except.ok (recordRows [] c (d0 :: ds) rows, [(groupParams c d0 ds, 3, 10)]) ∧
        ∀ d ∈ d0 :: ds, (∃ r ∈ rows, r.date = d) →
          dictHasKey (recordRows [] c (d0 :: ds) rows) (c.1, c.2, d) = true) ∧
    ((∀ i, net (groupParams c d0 ds) i = none) →
      batch_fetch_weather net ((d0 :: ds).map (fun d => (c, d)))
        = Except.ok ([], [(groupParams c d0 ds, 3, 15)])) := by
  refine ⟨?_, ?_, ?_, ?_, ?_⟩
  · exact retryFrom_attempts_le (net (groupParams c d0 ds)) RETRY_DELAY RETRIES 0
  · intro hnone
    obtain ⟨h1, h2⟩ :=
      retryFrom_none_counts (net (groupParams c d0 ds)) RETRY_DELAY RETRIES 0 hnone
    exact Prod.ext_iff.mpr ⟨h1, h2⟩
  · intro r hsome
    exact retryFrom_some_sleeps (net (groupParams c d0 ds)) RETRY_DELAY RETRIES 0 r hsome
  · intro rows h0 h1 h2
    have hr : retry_request (net (groupParams c d0 ds)) RETRIES RETRY_DELAY
        = (some (RespBody.jsonDaily rows), 3, 10) :=
      retry_request_two_failures (net (groupParams c d0 ds)) _ h0 h1 h2
    constructor
    · rw [batch_fetch_weather, location_groups_single]
      rw [weatherGo, hv]
      rw [hr]
      rw [weatherGo]
      rfl
    · intro d hd hex
      obtain ⟨r, hrmem, hrdate⟩ := hex
      exact (recordRows_hasKey c (d0 :: ds) rows [] (c.1, c.2, d)).mpr
        (Or.inr ⟨r, hrmem, by rw [hrdate]; exact hd, by rw [hrdate]⟩)
  · intro hall
    have hr : retry_request (net (groupParams c d0 ds)) RETRIES RETRY_DELAY
        = (none, 3, 15) :=
      retry_request_all_failures (net (groupParams c d0 ds)) hall
    rw [batch_fetch_weather, location_groups_single]
    rw [weatherGo, hv]
    rw [hr]
    rw [weatherGo]
    rfl

/-- Concrete network behavior for the C2 witness: the first two attempts of
any request fail, the third returns a daily series for 2024-01-01. -/
def exNet : WParams → Nat → Option RespBody :=
  fun _ i => if i = 2 then some (RespBody.jsonDaily [⟨"2024-01-01", 20, 0⟩]) else none

/-- Witness for C2 (amended) at the concrete coordinate (0, 0) and the single
date 2024-01-01 under `exNet`. -/
theorem c2_retry_bounded_and_absorbing_w :
    ((retry_request (exNet (groupParams (0, 0) "2024-01-01" [])) RETRIES RETRY_DELAY).2.1 ≤ 3) ∧
    ((retry_request (exNet (groupParams (0, 0) "2024-01-01" [])) RETRIES RETRY_DELAY).1 = none →
      (retry_request (exNet (groupParams (0, 0) "2024-01-01" [])) RETRIES RETRY_DELAY).2
        = (3, 15)) ∧
    (∀ r, (retry_request (exNet (groupParams (0, 0) "2024-01-01" [])) RETRIES RETRY_DELAY).1
        = some r →
      (retry_request (exNet (groupParams (0, 0) "2024-01-01" [])) RETRIES RETRY_DELAY).2.2
        = RETRY_DELAY *
          ((retry_request (exNet (groupParams (0, 0) "2024-01-01" [])) RETRIES RETRY_DELAY).2.1
            - 1)) ∧
    (∀ rows, exNet (groupParams (0, 0) "2024-01-01" []) 0 = none →
      exNet (groupParams (0, 0) "2024-01-01" []) 1 = none →
      exNet (groupParams (0, 0) "2024-01-01" []) 2 = some (RespBody.jsonDaily rows) →
      batch_fetch_weather exNet (["2024-01-01"].map (fun d => ((0, 0), d)))
          = Except.ok (recordRows [] (0, 0) ["2024-01-01"] rows,
              [(groupParams (0, 0) "2024-01-01" [], 3, 10)]) ∧
        ∀ d ∈ ["2024-01-01"], (∃ r ∈ rows, r.date = d) →
          dictHasKey (recordRows [] (0, 0) ["2024-01-01"] rows) (0, 0, d) = true) ∧
    ((∀ i, exNet (groupParams (0, 0) "2024-01-01" []) i = none) →
      batch_fetch_weather exNet (["2024-01-01"].map (fun d => ((0, 0), d)))
        = Except.ok ([], [(groupParams (0, 0) "2024-01-01" [], 3, 15)])) :=
  c2_retry_bounded_and_absorbing exNet (0, 0) "2024-01-01" [] (by decide)

/-! ### Per-group outcome and the recorded-entry characterization -/

/-- The parsed daily series a coordinate group obtains, if any: `some rows`
exactly when the group's range request returned a response whose body parsed
and contained a `'daily'` block. -/
def groupResult (net : WParams → Nat → Option RespBody) (c : ℚ × ℚ) (dates : List String) :
    Option (List DailyRow) :=
  match dates with
  | [] => none
  | d0 :: ds =>
    match (retry_request (net (groupParams c d0 ds)) RETRIES RETRY_DELAY).1 with
    | some (RespBody.jsonDaily rows) => some rows
    | _ => none

/-- A group `g` records the key `k`: its coordinate validates, its request
succeeded with a daily series, and some daily row has a date that is also in
the group's requested date list and makes up the key. -/
def groupYieldsKey (net : WParams → Nat → Option RespBody)
    (g : (ℚ × ℚ) × List String) (k : ℚ × ℚ × String) : Prop :=
  validate_coordinates g.1.1 g.1.2 = true ∧
  ∃ rows, groupResult net g.1 g.2 = some rows ∧
    ∃ r ∈ rows, r.date ∈ g.2 ∧ k = (g.1.1, g.1.2, r.date)

theorem yields_cons_absorb (net : WParams → Nat → Option RespBody)
    (g0 : (ℚ × ℚ) × List String) (rest : List ((ℚ × ℚ) × List String)) (k : ℚ × ℚ × String)
    (hno : ¬ groupYieldsKey net g0 k) :
    (∃ g ∈ g0 :: rest, groupYieldsKey net g k) ↔ (∃ g ∈ rest, groupYieldsKey net g k) := by
  constructor
  · rintro ⟨g', hg', hy⟩
    cases List.mem_cons.mp hg' with
    | inl h' => exact absurd (h' ▸ hy) hno
    | inr h' => exact ⟨g', h', hy⟩
  · rintro ⟨g', hg', hy⟩
    exact ⟨g', List.mem_cons_of_mem _ hg', hy⟩

theorem weatherGo_hasKey (net : WParams → Nat → Option RespBody)
    (gs : List ((ℚ × ℚ) × List String)) (acc : List ((ℚ × ℚ × String) × WeatherVal))
    (log : List (WParams × Nat × Nat)) (m : List ((ℚ × ℚ × String) × WeatherVal))
    (lg : List (WParams × Nat × Nat)) (k : ℚ × ℚ × String)
    (h : weatherGo net gs acc log = Except.ok (m, lg)) :
    dictHasKey m k = true ↔
      (dictHasKey acc k = true ∨ ∃ g ∈ gs, groupYieldsKey net g k) := by
  induction gs generalizing acc log with
  | nil =>
    rw [weatherGo.eq_def] at h
    dsimp only at h
    injection h with h1
    injection h1 with hL hR
    subst hL
    simp
  | cons g rest ih =>
    obtain ⟨c, dates⟩ := g
    rw [weatherGo.eq_def] at h
    dsimp only at h
    by_cases hvc : validate_coordinates c.1 c.2 = true
    · rw [if_pos hvc] at h
      cases dates with
      | nil =>
        dsimp only at h
        have hno : ¬ groupYieldsKey net (c, ([] : List String)) k := by
          rintro ⟨_, rows', hgr', _⟩
          exact absurd hgr' (by simp [groupResult])
        rw [ih _ _ h, yields_cons_absorb net _ rest k hno]
      | cons d0 ds =>
        dsimp only at h
        rcases hrr : retry_request (net (groupParams c d0 ds)) RETRIES RETRY_DELAY
          with ⟨res, att, sl⟩
        rw [hrr] at h
        have hr1 : (retry_request (net (groupParams c d0 ds)) RETRIES RETRY_DELAY).1 = res := by
          rw [hrr]
        cases res with
        | none =>
          dsimp only at h
          have hno : ¬ groupYieldsKey net (c, d0 :: ds) k := by
            rintro ⟨_, rows', hgr', _⟩
            rw [groupResult] at hgr'
            rw [hr1] at hgr'
            exact absurd hgr' (by simp)
          rw [ih _ _ h, yields_cons_absorb net _ rest k hno]
        | some b =>
          cases b with
          | malformed =>
            dsimp only at h
            exact absurd h (by simp)
          | jsonNoDaily =>
            dsimp only at h
            have hno : ¬ groupYieldsKey net (c, d0 :: ds) k := by
              rintro ⟨_, rows', hgr', _⟩
              rw [groupResult] at hgr'
              rw [hr1] at hgr'
              exact absurd hgr' (by simp)
            rw [ih _ _ h, yields_cons_absorb net _ rest k hno]
          | jsonDaily rows =>
            dsimp only at h
            have hgr : groupResult net c (d0 :: ds) = some rows := by
              rw [groupResult]
              rw [hr1]
            rw [ih _ _ h, recordRows_hasKey]
            constructor
            · rintro ((hacc | hex) | hrest)
              · exact Or.inl hacc
              · exact Or.inr ⟨(c, d0 :: ds), List.mem_cons_self _ _, hvc, rows, hgr, hex⟩
              · obtain ⟨g', hg', hy⟩ := hrest
                exact Or.inr ⟨g', List.mem_cons_of_mem _ hg', hy⟩
            · rintro (hacc | hex)
              · exact Or.inl (Or.inl hacc)
              · obtain ⟨g', hg', hy⟩ := hex
                cases List.mem_cons.mp hg' with
                | inl h' =>
                  subst h'
                  obtain ⟨hv', rows', hgr', hex'⟩ := hy
                  have hrows : rows' = rows := by
                    rw [hgr] at hgr'
                    exact (Option.some.inj hgr').symm
                  subst hrows
                  exact Or.inl (Or.inr hex')
                | inr h' => exact Or.inr ⟨g', h', hy⟩
    · rw [if_neg hvc] at h
      have hno : ¬ groupYieldsKey net (c, dates) k := fun hy => hvc hy.1
      rw [ih _ _ h, yields_cons_absorb net _ rest k hno]

theorem weatherGo_log (net : WParams → Nat → Option RespBody)
    (gs : List ((ℚ × ℚ) × List String)) (acc : List ((ℚ × ℚ × String) × WeatherVal))
    (log : List (WParams × Nat × Nat)) (m : List ((ℚ × ℚ × String) × WeatherVal))
    (lg : List (WParams × Nat × Nat))
    (h : weatherGo net gs acc log = Except.ok (m, lg)) :
    ∀ e ∈ lg, e ∈ log ∨ ∃ g ∈ gs, validate_coordinates g.1.1 g.1.2 = true ∧
      e.1.latitude = g.1.1 ∧ e.1.longitude = g.1.2 := by
  induction gs generalizing acc log with
  | nil =>
    rw [weatherGo.eq_def] at h
    dsimp only at h
    injection h with h1
    injection h1 with hL hR
    subst hR
    intro e he
    exact Or.inl he
  | cons g rest ih =>
    obtain ⟨c, dates⟩ := g
    rw [weatherGo.eq_def] at h
    dsimp only at h
    by_cases hvc : validate_coordinates c.1 c.2 = true
    · rw [if_pos hvc] at h
      cases dates with
      | nil =>
        dsimp only at h
        intro e he
        cases ih _ _ h e he with
        | inl hl => exact Or.inl hl
        | inr hex =>
          obtain ⟨g', hg', hy⟩ := hex
          exact Or.inr ⟨g', List.mem_cons_of_mem _ hg', hy⟩
      | cons d0 ds =>
        dsimp only at h
        rcases hrr : retry_request (net (groupParams c d0 ds)) RETRIES RETRY_DELAY
          with ⟨res, att, sl⟩
        rw [hrr] at h
        cases res with
        | none =>
          dsimp only at h
          intro e he
          cases ih _ _ h e he with
          | inl hl =>
            cases List.mem_append.mp hl with
            | inl hl' => exact Or.inl hl'
            | inr hl' =>
              have he' : e = (groupParams c d0 ds, att, sl) := by simpa using hl'
              refine Or.inr ⟨(c, d0 :: ds), List.mem_cons_self _ _, hvc, ?_, ?_⟩
              · rw [he']
                rfl
              · rw [he']
                rfl
          | inr hex =>
            obtain ⟨g', hg', hy⟩ := hex
            exact Or.inr ⟨g', List.mem_cons_of_mem _ hg', hy⟩
        | some b =>
          cases b with
          | malformed =>
            dsimp only at h
            exact absurd h (by simp)
          | jsonNoDaily =>
            dsimp only at h
            intro e he
            cases ih _ _ h e he with
            | inl hl =>
              cases List.mem_append.mp hl with
              | inl hl' => exact Or.inl hl'
              | inr hl' =>
                have he' : e = (groupParams c d0 ds, att, sl) := by simpa using hl'
                refine Or.inr ⟨(c, d0 :: ds), List.mem_cons_self _ _, hvc, ?_, ?_⟩
                · rw [he']
                  rfl
                · rw [he']
                  rfl
            | inr hex =>
              obtain ⟨g', hg', hy⟩ := hex
              exact Or.inr ⟨g', List.mem_cons_of_mem _ hg', hy⟩
          | jsonDaily rows =>
            dsimp only at h
            intro e he
            cases ih _ _ h e he with
            | inl hl =>
              cases List.mem_append.mp hl with
              | inl hl' => exact Or.inl hl'
              | inr hl' =>
                have he' : e = (groupParams c d0 ds, att, sl) := by simpa using hl'
                refine Or.inr ⟨(c, d0 :: ds), List.mem_cons_self _ _, hvc, ?_, ?_⟩
                · rw [he']
                  rfl
                · rw [he']
                  rfl
            | inr hex =>
              obtain ⟨g', hg', hy⟩ := hex
              exact Or.inr ⟨g', List.mem_cons_of_mem _ hg', hy⟩
    · rw [if_neg hvc] at h
      intro e he
      cases ih _ _ h e he with
      | inl hl => exact Or.inl hl
      | inr hex =>
        obtain ⟨g', hg', hy⟩ := hex
        exact Or.inr ⟨g', List.mem_cons_of_mem _ hg', hy⟩

/-! ### The dates a coordinate group holds are exactly the requested ones -/

/-- The dates originally requested for coordinate `c` in the fetcher's input,
in input order. -/
def requestedDates (location_dates : List ((ℚ × ℚ) × String)) (c : ℚ × ℚ) : List String :=
  (location_dates.filter (fun cd => decide (cd.1 = c))).map Prod.snd

theorem requestedDates_append_single (p : List ((ℚ × ℚ) × String)) (c c' : ℚ × ℚ)
    (d : String) :
    requestedDates (p ++ [(c, d)]) c'
      = requestedDates p c' ++ (if c = c' then [d] else []) := by
  unfold requestedDates
  rw [List.filter_append, List.map_append]
  congr 1
  by_cases hc : c = c'
  · simp [hc]
  · simp [hc]

theorem addGroup_any (gs : List ((ℚ × ℚ) × List String)) (c c' : ℚ × ℚ) (d : String) :
    (addGroup gs c d).any (fun g => decide (g.1 = c'))
      = (gs.any (fun g => decide (g.1 = c')) || decide (c = c')) := by
  rw [addGroup]
  by_cases h : gs.any (fun g => decide (g.1 = c))
  · rw [if_pos h]
    have hmap : (gs.map (fun g => if g.1 = c then (g.1, g.2 ++ [d]) else g)).any
        (fun g => decide (g.1 = c')) = gs.any (fun g => decide (g.1 = c')) := by
      clear h
      induction gs with
      | nil => rfl
      | cons g t iht =>
        rw [List.map_cons, List.any_cons, List.any_cons, iht]
        by_cases hg : g.1 = c
        · rw [if_pos hg]
        · rw [if_neg hg]
    rw [hmap]
    by_cases hcc : c = c'
    · subst hcc
      simp [h]
    · simp [hcc]
  · rw [if_neg h]
    simp [List.any_append]

theorem groups_inv_step (p : List ((ℚ × ℚ) × String)) (gs : List ((ℚ × ℚ) × List String))
    (c : ℚ × ℚ) (d : String)
    (h1 : ∀ g ∈ gs, g.2 = requestedDates p g.1)
    (h2 : ∀ c', gs.any (fun g => decide (g.1 = c')) = false → requestedDates p c' = []) :
    (∀ g ∈ addGroup gs c d, g.2 = requestedDates (p ++ [(c, d)]) g.1) ∧
    (∀ c', (addGroup gs c d).any (fun g => decide (g.1 = c')) = false →
      requestedDates (p ++ [(c, d)]) c' = []) := by
  constructor
  · intro g hg
    rw [addGroup] at hg
    by_cases h : gs.any (fun g => decide (g.1 = c))
    · rw [if_pos h] at hg
      obtain ⟨g0, hg0, rfl⟩ := List.mem_map.mp hg
      by_cases hg0c : g0.1 = c
      · rw [if_pos hg0c]
        dsimp only
        rw [requestedDates_append_single p c g0.1 d, if_pos hg0c.symm, h1 g0 hg0]
      · rw [if_neg hg0c]
        rw [requestedDates_append_single p c g0.1 d,
          if_neg (fun hc => hg0c hc.symm), List.append_nil]
        exact h1 g0 hg0
    · rw [if_neg h] at hg
      cases List.mem_append.mp hg with
      | inl hgs =>
        have hgc : ¬ (g.1 = c) := fun hgc =>
          h (List.any_eq_true.mpr ⟨g, hgs, by simp [hgc]⟩)
        rw [requestedDates_append_single p c g.1 d,
          if_neg (fun hc => hgc hc.symm), List.append_nil]
        exact h1 g hgs
      | inr hgd =>
        have hgone : g = (c, [d]) := by simpa using hgd
        have hfalse : gs.any (fun g => decide (g.1 = c)) = false := by
          rw [Bool.eq_false_iff]
          exact h
        rw [hgone]
        dsimp only
        rw [requestedDates_append_single p c c d, if_pos rfl, h2 c hfalse]
        rfl
  · intro c' hany
    rw [addGroup_any] at hany
    have hsplit := Bool.or_eq_false_iff.mp hany
    rw [requestedDates_append_single p c c' d, h2 c' hsplit.1,
      if_neg (by simpa using hsplit.2)]
    rfl

theorem groups_foldl_inv (l p : List ((ℚ × ℚ) × String)) (gs : List ((ℚ × ℚ) × List String))
    (h1 : ∀ g ∈ gs, g.2 = requestedDates p g.1)
    (h2 : ∀ c', gs.any (fun g => decide (g.1 = c')) = false → requestedDates p c' = []) :
    ∀ g ∈ l.foldl (fun gs cd => addGroup gs cd.1 cd.2) gs,
      g.2 = requestedDates (p ++ l) g.1 := by
  induction l generalizing p gs with
  | nil => simpa using h1
  | cons cd t ih =>
    obtain ⟨c, d⟩ := cd
    rw [List.foldl_cons]
    dsimp only
    obtain ⟨h1', h2'⟩ := groups_inv_step p gs c d h1 h2
    have hrec := ih (p ++ [(c, d)]) (addGroup gs c d) h1' h2'
    simpa [List.append_assoc] using hrec

theorem location_groups_snd (input : List ((ℚ × ℚ) × String)) :
    ∀ g ∈ location_groups input, g.2 = requestedDates input g.1 := by
  have hrec := groups_foldl_inv input [] []
    (fun g hg => absurd hg (List.not_mem_nil g)) (fun c _ => rfl)
  simpa using hrec

/-! ### Claim theorem C4 -/

/-- C4: whenever the Weather Series Fetcher completes with a weather mapping
`m` and call log `log`, a key (latitude, longitude, date) is recorded in `m`
iff some group of the coordinate-batched input yields it, i.e. iff its
coordinate passes the range validation, the group's range request succeeded
with a parsed `'daily'` series, and the date is both present in that series
and among the dates originally requested for that coordinate (every group's
date list is exactly `requestedDates` of the input for its coordinate); and a
coordinate that fails validation has no call issued: no log entry carries it. -/
theorem c4_weather_entry_characterization (net : WParams → Nat → Option RespBody)
    (input : List ((ℚ × ℚ) × String)) (la lo : ℚ) (d : String)
    (m : List ((ℚ × ℚ × String) × WeatherVal)) (log : List (WParams × Nat × Nat))
    (h : batch_fetch_weather net input = Except.ok (m, log)) :
    (dictHasKey m (la, lo, d) = true ↔
      ∃ g ∈ location_groups input, groupYieldsKey net g (la, lo, d)) ∧
    (∀ g ∈ location_groups input, g.2 = requestedDates input g.1) ∧
    (validate_coordinates la lo = false →
      ∀ e ∈ log, ¬ (e.1.latitude = la ∧ e.1.longitude = lo)) := by
  refine ⟨?_, location_groups_snd input, ?_⟩
  · have hkey := weatherGo_hasKey net (location_groups input) [] [] m log (la, lo, d) h
    simpa [dictHasKey] using hkey
  · intro hval e he
    rintro ⟨hlat, hlon⟩
    have hlog := weatherGo_log net (location_groups input) [] [] m log h e he
    cases hlog with
    | inl h0 => exact absurd h0 (List.not_mem_nil e)
    | inr hex =>
      obtain ⟨g, hg, hgv, hel, heo⟩ := hex
      have h11 : g.1.1 = la := hel.symm.trans hlat
      have h12 : g.1.2 = lo := heo.symm.trans hlon
      rw [h11, h12] at hgv
      rw [hgv] at hval
      exact absurd hval (by simp)

/-- Witness for C4 at a concrete run: `exNet` on the single request
((0, 0), 2024-01-01), which completes with one recorded entry. -/
theorem c4_weather_entry_characterization_w :
    (dictHasKey [(((0 : ℚ), (0 : ℚ), "2024-01-01"), (⟨20, 0⟩ : WeatherVal))]
        ((0 : ℚ), (0 : ℚ), "2024-01-01") = true ↔
      ∃ g ∈ location_groups [(((0 : ℚ), (0 : ℚ)), "2024-01-01")],
        groupYieldsKey exNet g ((0 : ℚ), (0 : ℚ), "2024-01-01")) ∧
    (∀ g ∈ location_groups [(((0 : ℚ), (0 : ℚ)), "2024-01-01")],
      g.2 = requestedDates [(((0 : ℚ), (0 : ℚ)), "2024-01-01")] g.1) ∧
    (validate_coordinates 0 0 = false →
      ∀ e ∈ [(groupParams ((0 : ℚ), (0 : ℚ)) "2024-01-01" [], 3, 10)],
        ¬ (e.1.latitude = 0 ∧ e.1.longitude = 0)) :=
  c4_weather_entry_characterization exNet [(((0 : ℚ), (0 : ℚ)), "2024-01-01")] 0 0
    "2024-01-01" [(((0 : ℚ), (0 : ℚ), "2024-01-01"), ⟨20, 0⟩)]
    [(groupParams ((0 : ℚ), (0 : ℚ)) "2024-01-01" [], 3, 10)] (by rfl)

/-! ### Relational Joiner (`join_olist_data`) -/

/-- One cleaned order line (`order_items` row); required columns are non-null
after cleaning. -/
structure OrderItem where
  order_id : String
  order_item_id : Nat
  product_id : String
  seller_id : String
  price : ℚ
  freight_value : ℚ
deriving DecidableEq, Repr

/-- One cleaned order (`orders` row): status already filtered to delivered,
timestamps non-null. Timestamps are kept abstract as strings. -/
structure OrderRow where
  order_id : String
  customer_id : String
  purchase_ts : String
  delivered_ts : String
deriving DecidableEq, Repr

/-- One customer row with its zip code prefix. -/
structure CustomerRow where
  customer_id : String
  zip : String
deriving DecidableEq, Repr

/-- The aggregation key of `join_olist_data`:
(order_id, seller_id, customer_id, purchase_ts, delivered_ts). -/
abbrev AggKey := String × String × String × String × String

/-- The inner merge of `order_items` with `orders` on `order_id`: every
item paired with every matching order (pandas inner join). -/
def ordersItems (order_items : List OrderItem) (orders : List OrderRow) :
    List (OrderItem × OrderRow) :=
  order_items.flatMap (fun it =>
    (orders.filter (fun o => decide (o.order_id = it.order_id))).map (fun o => (it, o)))

/-- The groupby key of one merged row. -/
def aggKey (p : OrderItem × OrderRow) : AggKey :=
  (p.1.order_id, p.1.seller_id, p.2.customer_id, p.2.purchase_ts, p.2.delivered_ts)

/-- `total_price = price + freight_value` per merged line. -/
def total_price (p : OrderItem × OrderRow) : ℚ := p.1.price + p.1.freight_value

/-- The distinct groupby keys present in the merged rows. -/
def aggKeys (order_items : List OrderItem) (orders : List OrderRow) : List AggKey :=
  ((ordersItems order_items orders).map aggKey).dedup

/-- `total_order_value`: sum of `total_price` over the lines of one key. -/
def keyTotal (order_items : List OrderItem) (orders : List OrderRow) (k : AggKey) : ℚ :=
  (((ordersItems order_items orders).filter (fun p => decide (aggKey p = k))).map
    total_price).sum

/-- The `groupby(...).agg(total_order_value=('total_price','sum'))` result:
one row per distinct key. -/
def order_agg (order_items : List OrderItem) (orders : List OrderRow) :
    List (AggKey × ℚ) :=
  (aggKeys order_items orders).map (fun k => (k, keyTotal order_items orders k))

/-- An aggregated row after the left join with `customers`: zip is unset when
no customer matched. -/
structure AggCust where
  key : AggKey
  total : ℚ
  zip : Option String
deriving DecidableEq, Repr

/-- One row's left join with `customers` on `customer_id`: pandas keeps the
row with an unset zip when nothing matches, and duplicates it per match
otherwise. -/
def custJoinRow (customers : List CustomerRow) (a : AggKey × ℚ) : List AggCust :=
  match customers.filter (fun cu => decide (cu.customer_id = a.1.2.2.1)) with
  | [] => [⟨a.1, a.2, none⟩]
  | cs => cs.map (fun cu => ⟨a.1, a.2, some cu.zip⟩)

/-- Left join of the aggregate with `customers`. -/
def joinCustomers (agg : List (AggKey × ℚ)) (customers : List CustomerRow) : List AggCust :=
  agg.flatMap (custJoinRow customers)

/-- An aggregated row after the further left join with the processed
geolocations: delivery coordinates unset when the zip is unset or unmatched. -/
structure AggGeo where
  key : AggKey
  total : ℚ
  zip : Option String
  lat : Option ℚ
  lng : Option ℚ
deriving DecidableEq, Repr

/-- One row's left join with the processed geolocations on the zip prefix: an
unset zip (pandas NaN key) matches nothing. -/
def geoJoinRow (geo : List GeoAgg) (a : AggCust) : List AggGeo :=
  match a.zip with
  | none => [⟨a.key, a.total, none, none, none⟩]
  | some z =>
    match geo.filter (fun g => decide (g.zip = z)) with
    | [] => [⟨a.key, a.total, some z, none, none⟩]
    | gs => gs.map (fun g => ⟨a.key, a.total, some z, some g.lat, some g.lng⟩)

/-- Left join with the processed geolocations. -/
def joinGeo (rows : List AggCust) (geo : List GeoAgg) : List AggGeo :=
  rows.flatMap (geoJoinRow geo)

/-- One fully joined output row of the Relational Joiner; every required
column present by construction. -/
structure JoinedRow where
  order_id : String
  seller_id : String
  purchase_ts : String
  delivered_ts : String
  total_order_value : ℚ
  lat : ℚ
  lng : ℚ
deriving DecidableEq, Repr

/-- `dropna(subset=required_cols)[required_cols]`: of the required columns
only the coordinates can be unset, so a row survives iff both are set. -/
def finalize (a : AggGeo) : Option JoinedRow :=
  match a.lat, a.lng with
  | some la, some lo =>
    some ⟨a.key.1, a.key.2.1, a.key.2.2.2.1, a.key.2.2.2.2, a.total, la, lo⟩
  | _, _ => none

/-- `join_olist_data(sellers, orders, order_items, geo_processed, customers)`.
The `sellers` argument of the source function is never used in its body and is
omitted here. -/
def join_olist_data (order_items : List OrderItem) (orders : List OrderRow)
    (customers : List CustomerRow) (geo : List GeoAgg) : List JoinedRow :=
  (joinGeo (joinCustomers (order_agg order_items orders) customers) geo).filterMap finalize

/-- The processing of a single aggregated entry through both left joins and
the final drop. -/
def perEntry (customers : List CustomerRow) (geo : List GeoAgg) (a : AggKey × ℚ) :
    List JoinedRow :=
  ((custJoinRow customers a).flatMap (geoJoinRow geo)).filterMap finalize

/-- A key's customer resolves to a coordinate: some customer row carries its
customer_id and some processed geolocation row carries that customer's zip. -/
def resolvedKey (customers : List CustomerRow) (geo : List GeoAgg) (cid : String) : Prop :=
  ∃ cu ∈ customers, cu.customer_id = cid ∧ ∃ g ∈ geo, g.zip = cu.zip

instance (customers : List CustomerRow) (geo : List GeoAgg) (cid : String) :
    Decidable (resolvedKey customers geo cid) := by
  unfold resolvedKey
  infer_instance

/-! ### Joiner lemmas -/

theorem filter_unique_key {α κ : Type} [DecidableEq κ] (l : List α) (f : α → κ) (v : κ)
    (h : (l.map f).Nodup) :
    l.filter (fun x => decide (f x = v)) = [] ∨
    ∃ x ∈ l, f x = v ∧ l.filter (fun x => decide (f x = v)) = [x] := by
  induction l with
  | nil => exact Or.inl rfl
  | cons a t ih =>
    rw [List.map_cons, List.nodup_cons] at h
    obtain ⟨ha, ht⟩ := h
    by_cases hv : f a = v
    · have htf : t.filter (fun x => decide (f x = v)) = [] := by
        rw [List.filter_eq_nil_iff]
        intro x hx
        simp only [decide_eq_true_eq]
        intro hfx
        have hmem : f a ∈ t.map f := by
          rw [hv, ← hfx]
          exact List.mem_map_of_mem f hx
        exact ha hmem
      refine Or.inr ⟨a, List.mem_cons_self a t, hv, ?_⟩
      rw [List.filter_cons, htf]
      simp [hv]
    · have hda : (decide (f a = v) : Bool) = false := by simp [hv]
      rw [List.filter_cons, hda]
      simp only [Bool.false_eq_true, if_false]
      cases ih ht with
      | inl h0 => exact Or.inl h0
      | inr h1 =>
        obtain ⟨x, hx, hfx, heq⟩ := h1
        exact Or.inr ⟨x, List.mem_cons_of_mem a hx, hfx, heq⟩

theorem filterMap_flatMap {α β γ : Type} (l : List α) (f : α → List β) (g : β → Option γ) :
    (l.flatMap f).filterMap g = l.flatMap (fun x => (f x).filterMap g) := by
  induction l with
  | nil => rfl
  | cons a t ih => rw [List.flatMap_cons, List.flatMap_cons, List.filterMap_append, ih]

theorem countP_flatMap {α β : Type} (l : List α) (f : α → List β) (p : β → Bool) :
    (l.flatMap f).countP p = (l.map (fun x => (f x).countP p)).sum := by
  induction l with
  | nil => rfl
  | cons a t ih => rw [List.flatMap_cons, List.countP_append, List.map_cons, List.sum_cons, ih]

theorem sum_map_single {α : Type} [DecidableEq α] (ks : List α) (hnd : ks.Nodup) (k : α)
    (hk : k ∈ ks) (f : α → Nat) (hz : ∀ k' ∈ ks, k' ≠ k → f k' = 0) :
    (ks.map f).sum = f k := by
  induction ks with
  | nil => exact absurd hk (List.not_mem_nil k)
  | cons a t ih =>
    rw [List.map_cons, List.sum_cons]
    rw [List.nodup_cons] at hnd
    by_cases hak : a = k
    · subst hak
      have hzt : ∀ k' ∈ t, f k' = 0 := fun k' hk' =>
        hz k' (List.mem_cons_of_mem a hk') (fun he => hnd.1 (he ▸ hk'))
      have hts : (t.map f).sum = 0 := by
        apply List.sum_eq_zero
        intro x hx
        obtain ⟨k', hk', rfl⟩ := List.mem_map.mp hx
        exact hzt k' hk'
      rw [hts]
      exact Nat.add_zero (f a)
    · cases List.mem_cons.mp hk with
      | inl h' => exact absurd h'.symm hak
      | inr h' =>
        rw [hz a (List.mem_cons_self a t) hak,
          ih hnd.2 h' (fun k' hk' hne => hz k' (List.mem_cons_of_mem a hk') hne)]
        exact Nat.zero_add (f k)

theorem join_olist_eq_bind (order_items : List OrderItem) (orders : List OrderRow)
    (customers : List CustomerRow) (geo : List GeoAgg) :
    join_olist_data order_items orders customers geo
      = (order_agg order_items orders).flatMap (perEntry customers geo) := by
  unfold join_olist_data joinGeo joinCustomers
  rw [filterMap_flatMap, List.flatMap_assoc]
  congr 1
  funext a
  rw [perEntry, filterMap_flatMap]

theorem ordersItems_mem (order_items : List OrderItem) (orders : List OrderRow)
    (p : OrderItem × OrderRow) (hp : p ∈ ordersItems order_items orders) :
    p.1 ∈ order_items ∧ p.2 ∈ orders ∧ p.2.order_id = p.1.order_id := by
  unfold ordersItems at hp
  obtain ⟨it, hit, hp2⟩ := List.mem_flatMap.mp hp
  obtain ⟨o, hofil, rfl⟩ := List.mem_map.mp hp2
  refine ⟨hit, List.mem_of_mem_filter hofil, ?_⟩
  have := List.of_mem_filter hofil
  simpa using this

theorem aggKeys_mem_order (order_items : List OrderItem) (orders : List OrderRow)
    (k : AggKey) (hk : k ∈ aggKeys order_items orders) :
    ∃ o ∈ orders, o.order_id = k.1 ∧
      k.2.2 = (o.customer_id, o.purchase_ts, o.delivered_ts) := by
  rw [aggKeys, List.mem_dedup] at hk
  obtain ⟨p, hp, rfl⟩ := List.mem_map.mp hk
  obtain ⟨_, ho, hoid⟩ := ordersItems_mem order_items orders p hp
  exact ⟨p.2, ho, hoid, rfl⟩

theorem aggKeys_order_unique (order_items : List OrderItem) (orders : List OrderRow)
    (ho : (orders.map (fun o => o.order_id)).Nodup)
    (k k' : AggKey) (hk : k ∈ aggKeys order_items orders)
    (hk' : k' ∈ aggKeys order_items orders)
    (h1 : k.1 = k'.1) (h2 : k.2.1 = k'.2.1) : k = k' := by
  obtain ⟨o, hom, hoid, htail⟩ := aggKeys_mem_order order_items orders k hk
  obtain ⟨o', hom', hoid', htail'⟩ := aggKeys_mem_order order_items orders k' hk'
  have hoo : o = o' :=
    List.inj_on_of_nodup_map ho hom hom' (by rw [hoid, hoid', h1])
  have htt : k.2.2 = k'.2.2 := by rw [htail, htail', hoo]
  have hsnd : k.2 = k'.2 := Prod.ext_iff.mpr ⟨h2, htt⟩
  exact Prod.ext_iff.mpr ⟨h1, hsnd⟩

theorem custJoinRow_cases (customers : List CustomerRow)
    (hc : (customers.map (fun cu => cu.customer_id)).Nodup) (a : AggKey × ℚ) :
    ((∀ cu ∈ customers, cu.customer_id ≠ a.1.2.2.1) ∧
      custJoinRow customers a = [⟨a.1, a.2, none⟩]) ∨
    (∃ cu ∈ customers, cu.customer_id = a.1.2.2.1 ∧
      custJoinRow customers a = [⟨a.1, a.2, some cu.zip⟩]) := by
  cases filter_unique_key customers (fun cu => cu.customer_id) a.1.2.2.1 hc with
  | inl hnil =>
    refine Or.inl ⟨?_, ?_⟩
    · intro cu hcu heq
      have hmem : cu ∈ customers.filter (fun cu => decide (cu.customer_id = a.1.2.2.1)) :=
        List.mem_filter.mpr ⟨hcu, by simp [heq]⟩
      rw [hnil] at hmem
      exact absurd hmem (List.not_mem_nil cu)
    · unfold custJoinRow
      rw [hnil]
  | inr hone =>
    obtain ⟨cu, hcu, hid, heq⟩ := hone
    refine Or.inr ⟨cu, hcu, hid, ?_⟩
    unfold custJoinRow
    rw [heq]
    rfl

theorem perEntry_cases (customers : List CustomerRow) (geo : List GeoAgg)
    (hc : (customers.map (fun cu => cu.customer_id)).Nodup)
    (hg : (geo.map GeoAgg.zip).Nodup) (a : AggKey × ℚ) :
    (¬ resolvedKey customers geo a.1.2.2.1 ∧ perEntry customers geo a = []) ∨
    (∃ cu ∈ customers, cu.customer_id = a.1.2.2.1 ∧ ∃ g ∈ geo, g.zip = cu.zip ∧
      perEntry customers geo a
        = [⟨a.1.1, a.1.2.1, a.1.2.2.2.1, a.1.2.2.2.2, a.2, g.lat, g.lng⟩]) := by
  cases custJoinRow_cases customers hc a with
  | inl hnone =>
    obtain ⟨hnocu, hcrow⟩ := hnone
    refine Or.inl ⟨?_, ?_⟩
    · rintro ⟨cu, hcu, hid, _⟩
      exact hnocu cu hcu hid
    · rw [perEntry, hcrow]
      rfl
  | inr hsome =>
    obtain ⟨cu, hcu, hid, hcrow⟩ := hsome
    cases filter_unique_key geo GeoAgg.zip cu.zip hg with
    | inl hgnil =>
      refine Or.inl ⟨?_, ?_⟩
      · rintro ⟨cu', hcu', hid', g, hgmem, hgzip⟩
        have hcueq : cu' = cu :=
          List.inj_on_of_nodup_map hc hcu' hcu (hid'.trans hid.symm)
        have hgf : g ∈ geo.filter (fun g => decide (g.zip = cu.zip)) :=
          List.mem_filter.mpr ⟨hgmem, by simp [hgzip, hcueq]⟩
        rw [hgnil] at hgf
        exact absurd hgf (List.not_mem_nil g)
      · have hgrow : geoJoinRow geo ⟨a.1, a.2, some cu.zip⟩
            = [⟨a.1, a.2, some cu.zip, none, none⟩] := by
          unfold geoJoinRow
          dsimp only
          rw [hgnil]
        rw [perEntry, hcrow, List.flatMap_singleton, hgrow]
        rfl
    | inr hgone =>
      obtain ⟨g, hgmem, hgzip, hgeq⟩ := hgone
      refine Or.inr ⟨cu, hcu, hid, g, hgmem, hgzip, ?_⟩
      have hgrow : geoJoinRow geo ⟨a.1, a.2, some cu.zip⟩
          = [⟨a.1, a.2, some cu.zip, some g.lat, some g.lng⟩] := by
        unfold geoJoinRow
        dsimp only
        rw [hgeq]
        rfl
      rw [perEntry, hcrow, List.flatMap_singleton, hgrow]
      rfl

/-! ### Claim theorem C6 -/

/-- C6: on interface-conforming inputs (orders unique by order_id, customers
unique by customer_id, processed geolocations unique by zip prefix — the spec
guarantees duplicate primary keys are removed upstream), the Relational Joiner
outputs exactly one row for each distinct aggregation key of the inner join of
order lines with orders whose customer resolves to a delivery coordinate, and
no row for a key that does not resolve; every emitted row for a key carries
that key's timestamps, `total_order_value` equal to the sum of
price + freight_value over the key's lines, and the resolved coordinate —
rows missing the coordinate are dropped wholesale. -/
theorem c6_joiner_one_row_per_combination (order_items : List OrderItem)
    (orders : List OrderRow) (customers : List CustomerRow) (geo : List GeoAgg)
    (ho : (orders.map (fun o => o.order_id)).Nodup)
    (hc : (customers.map (fun cu => cu.customer_id)).Nodup)
    (hg : (geo.map GeoAgg.zip).Nodup)
    (k : AggKey) (hk : k ∈ aggKeys order_items orders) :
    ((join_olist_data order_items orders customers geo).filter
        (fun r => decide (r.order_id = k.1 ∧ r.seller_id = k.2.1))).length
      = (if resolvedKey customers geo k.2.2.1 then 1 else 0) ∧
    (∀ r ∈ join_olist_data order_items orders customers geo,
      r.order_id = k.1 → r.seller_id = k.2.1 →
      r.purchase_ts = k.2.2.2.1 ∧ r.delivered_ts = k.2.2.2.2 ∧
      r.total_order_value = keyTotal order_items orders k ∧
      ∃ cu ∈ customers, cu.customer_id = k.2.2.1 ∧
        ∃ g ∈ geo, g.zip = cu.zip ∧ r.lat = g.lat ∧ r.lng = g.lng) := by
  have hQ0 : ∀ k' ∈ aggKeys order_items orders, k' ≠ k →
      ((perEntry customers geo (k', keyTotal order_items orders k')).countP
        (fun r => decide (r.order_id = k.1 ∧ r.seller_id = k.2.1))) = 0 := by
    intro k' hk' hne
    rw [List.countP_eq_zero]
    intro r hr
    simp only [decide_eq_true_eq, not_and]
    intro hr1 hr2
    cases perEntry_cases customers geo hc hg (k', keyTotal order_items orders k') with
    | inl h0 =>
      rw [h0.2] at hr
      exact absurd hr (List.not_mem_nil r)
    | inr h1 =>
      obtain ⟨cu, _, _, g, _, _, heq⟩ := h1
      rw [heq] at hr
      have hrr : r = ⟨k'.1, k'.2.1, k'.2.2.2.1, k'.2.2.2.2,
          keyTotal order_items orders k', g.lat, g.lng⟩ := by
        simpa using hr
      have h1' : k'.1 = k.1 := by rw [← hr1, hrr]
      have h2' : k'.2.1 = k.2.1 := by rw [← hr2, hrr]
      exact hne (aggKeys_order_unique order_items orders ho k' k hk' hk h1' h2')
  have hKcount : ((perEntry customers geo (k, keyTotal order_items orders k)).countP
      (fun r => decide (r.order_id = k.1 ∧ r.seller_id = k.2.1)))
      = (if resolvedKey customers geo k.2.2.1 then 1 else 0) := by
    cases perEntry_cases customers geo hc hg (k, keyTotal order_items orders k) with
    | inl h0 =>
      rw [h0.2, if_neg h0.1]
      rfl
    | inr h1 =>
      obtain ⟨cu, hcu, hid, g, hgmem, hgzip, heq⟩ := h1
      rw [heq, if_pos ⟨cu, hcu, hid, g, hgmem, hgzip⟩]
      simp
  constructor
  · rw [← List.countP_eq_length_filter, join_olist_eq_bind,
      countP_flatMap, order_agg, List.map_map]
    simp only [Function.comp_def]
    rw [sum_map_single (aggKeys order_items orders) (List.nodup_dedup _) k hk _
      (fun k' hk' hne => hQ0 k' hk' hne)]
    exact hKcount
  · intro r hr hr1 hr2
    rw [join_olist_eq_bind] at hr
    obtain ⟨a, ha, hper⟩ := List.mem_flatMap.mp hr
    obtain ⟨k', hk', rfl⟩ := List.mem_map.mp ha
    cases perEntry_cases customers geo hc hg (k', keyTotal order_items orders k') with
    | inl h0 =>
      rw [h0.2] at hper
      exact absurd hper (List.not_mem_nil r)
    | inr h1 =>
      obtain ⟨cu, hcu, hid, g, hgmem, hgzip, heq⟩ := h1
      rw [heq] at hper
      have hrr : r = ⟨k'.1, k'.2.1, k'.2.2.2.1, k'.2.2.2.2,
          keyTotal order_items orders k', g.lat, g.lng⟩ := by
        simpa using hper
      have h1' : k'.1 = k.1 := by rw [← hr1, hrr]
      have h2' : k'.2.1 = k.2.1 := by rw [← hr2, hrr]
      have hkk : k' = k := aggKeys_order_unique order_items orders ho k' k hk' hk h1' h2'
      subst hkk
      rw [hrr]
      exact ⟨rfl, rfl, rfl, cu, hcu, hid, g, hgmem, hgzip, rfl, rfl⟩

/-- Concrete inputs for the C6 witness: one line, one order, one customer, one
geolocation group. -/
def exItems : List OrderItem := [⟨"o1", 1, "p1", "s1", 50, 10⟩]

/-- The single order of the C6 witness data. -/
def exOrders : List OrderRow := [⟨"o1", "c1", "2017-01-01 10:00", "2017-01-10 10:00"⟩]

/-- The single customer of the C6 witness data. -/
def exCustomers : List CustomerRow := [⟨"c1", "01000"⟩]

/-- The single processed geolocation of the C6 witness data. -/
def exGeo : List GeoAgg := [⟨"01000", 20, 30, "sao paulo", "SP"⟩]

/-- Witness for C6 at the concrete data: the single key
(o1, s1, c1, timestamps) resolves, so exactly one output row. -/
theorem c6_joiner_one_row_per_combination_w :
    ((join_olist_data exItems exOrders exCustomers exGeo).filter
        (fun r => decide (r.order_id = "o1" ∧ r.seller_id = "s1"))).length
      = (if resolvedKey exCustomers exGeo "c1" then 1 else 0) ∧
    (∀ r ∈ join_olist_data exItems exOrders exCustomers exGeo,
      r.order_id = "o1" → r.seller_id = "s1" →
      r.purchase_ts = "2017-01-01 10:00" ∧ r.delivered_ts = "2017-01-10 10:00" ∧
      r.total_order_value = keyTotal exItems exOrders
        ("o1", "s1", "c1", "2017-01-01 10:00", "2017-01-10 10:00") ∧
      ∃ cu ∈ exCustomers, cu.customer_id = "c1" ∧
        ∃ g ∈ exGeo, g.zip = cu.zip ∧ r.lat = g.lat ∧ r.lng = g.lng) :=
  c6_joiner_one_row_per_combination exItems exOrders exCustomers exGeo
    (by decide) (by decide) (by decide)
    ("o1", "s1", "c1", "2017-01-01 10:00", "2017-01-10 10:00") (by decide)

/-! ### Enrichment Merger (`enrich_data`) -/

/-- A joined row after timestamp localization: both timestamps successfully
localized to the configured time zone and converted to UTC. -/
structure LocRow where
  order_id : String
  seller_id : String
  purchase_utc : String
  delivered_utc : String
  total_order_value : ℚ
  lat : ℚ
  lng : ℚ
deriving DecidableEq, Repr

/-- The final `EnrichedOrder` record; all ten fields are non-optional, so a
constructed record has every field present by type. -/
structure EnrichedRow where
  order_id : String
  seller_id : String
  purchase_utc : String
  delivered_utc : String
  total_order_value : ℚ
  market : ℚ
  lat : ℚ
  lng : ℚ
  mean_temp : ℚ
  precipitation : ℚ
deriving DecidableEq, Repr

/-- `tz_localize(TIMEZONE, ambiguous='NaT', nonexistent='NaT').tz_convert('UTC')`
applied to one row's two timestamps; the library behavior is the parameter
`locUTC` (`none` = NaT: the timestamp is ambiguous or non-existent under the
configured zone's transition rules). A row with either timestamp NaT is
dropped by the following `dropna`. -/
def localizeRow (locUTC : String → Option String) (r : JoinedRow) : Option LocRow :=
  match locUTC r.purchase_ts, locUTC r.delivered_ts with
  | some pu, some du =>
    some ⟨r.order_id, r.seller_id, pu, du, r.total_order_value, r.lat, r.lng⟩
  | _, _ => none

/-- The localization + `dropna(subset=timestamps)` step of `enrich_data`. -/
def localizeRows (locUTC : String → Option String) (rows : List JoinedRow) : List LocRow :=
  rows.filterMap (localizeRow locUTC)

/-- `pandas.unique`: first occurrence of each value, in order. -/
def uniqueFirst {α : Type} [DecidableEq α] (l : List α) : List α :=
  l.foldl (fun acc a => if a ∈ acc then acc else acc ++ [a]) []

/-- `df['order_purchase_timestamp'].dt.strftime("%Y-%m-%d").unique()`; `fmt`
models `strftime("%Y-%m-%d")` on a UTC timestamp. -/
def purchaseDates (fmt : String → String) (loc : List LocRow) : List String :=
  uniqueFirst (loc.map (fun r => fmt r.purchase_utc))

/-- The S&P 500 map built inside `enrich_data` from the surviving rows'
distinct purchase dates. -/
def marketMap (fetch : String → String → Except Unit (List (String × ℚ)))
    (locUTC : String → Option String) (fmt : String → String)
    (rows : List JoinedRow) : List (String × Option ℚ) :=
  batch_fetch_sp500 fetch (purchaseDates fmt (localizeRows locUTC rows))

/-- The (coordinate, delivered date) request list handed to the Weather Series
Fetcher. -/
def weatherInput (fmt : String → String) (loc : List LocRow) :
    List ((ℚ × ℚ) × String) :=
  loc.map (fun r => ((r.lat, r.lng), fmt r.delivered_utc))

/-- Per-row enrichment and the final `dropna(subset=final_fields)`: the market
value comes from the purchase-date lookup (`Series.map` turns both a missing
key and a key bound to `None` into NaN, hence the `.bind id`), the weather
values from the (lat, lng, delivered date) lookup
(`weather_data.get(x, {}).get(...)`); a row missing any value is dropped in
full. -/
def enrichRow (m : List (String × Option ℚ)) (wd : List ((ℚ × ℚ × String) × WeatherVal))
    (fmt : String → String) (r : LocRow) : Option EnrichedRow :=
  match (dictGet m (fmt r.purchase_utc)).bind id,
      dictGet wd (r.lat, r.lng, fmt r.delivered_utc) with
  | some mv, some wv =>
    some ⟨r.order_id, r.seller_id, r.purchase_utc, r.delivered_utc,
      r.total_order_value, mv, r.lat, r.lng, wv.mean_temp, wv.precipitation⟩
  | _, _ => none

/-- `enrich_data(df)` with the external effects as parameters. A malformed
weather response body raises inside `batch_fetch_weather`, and nothing in
`enrich_data` catches it (`Except.error`). -/
def enrich_data (fetch : String → String → Except Unit (List (String × ℚ)))
    (net : WParams → Nat → Option RespBody) (locUTC : String → Option String)
    (fmt : String → String) (rows : List JoinedRow) :
    Except Unit (List EnrichedRow) :=
  match batch_fetch_weather net (weatherInput fmt (localizeRows locUTC rows)) with
  | Except.error e => Except.error e
  | Except.ok (wd, _) =>
    Except.ok ((localizeRows locUTC rows).filterMap
      (enrichRow (marketMap fetch locUTC fmt rows) wd fmt))

theorem localizeRow_some (locUTC : String → Option String) (jr : JoinedRow) (lr : LocRow)
    (h : localizeRow locUTC jr = some lr) :
    lr.order_id = jr.order_id ∧ lr.seller_id = jr.seller_id ∧
    lr.total_order_value = jr.total_order_value ∧ lr.lat = jr.lat ∧ lr.lng = jr.lng ∧
    locUTC jr.purchase_ts = some lr.purchase_utc ∧
    locUTC jr.delivered_ts = some lr.delivered_utc := by
  unfold localizeRow at h
  split at h
  · rename_i pu du hpu hdu
    injection h with h'
    subst h'
    exact ⟨rfl, rfl, rfl, rfl, rfl, hpu, hdu⟩
  · exact absurd h (by simp)

theorem enrichRow_some (m : List (String × Option ℚ))
    (wd : List ((ℚ × ℚ × String) × WeatherVal)) (fmt : String → String)
    (lr : LocRow) (er : EnrichedRow) (h : enrichRow m wd fmt lr = some er) :
    er.order_id = lr.order_id ∧ er.seller_id = lr.seller_id ∧
    er.purchase_utc = lr.purchase_utc ∧ er.delivered_utc = lr.delivered_utc ∧
    er.total_order_value = lr.total_order_value ∧ er.lat = lr.lat ∧ er.lng = lr.lng ∧
    (dictGet m (fmt lr.purchase_utc)).bind id = some er.market ∧
    dictGet wd (lr.lat, lr.lng, fmt lr.delivered_utc)
      = some ⟨er.mean_temp, er.precipitation⟩ := by
  unfold enrichRow at h
  split at h
  · rename_i mv wv hmv hwv
    injection h with h'
    subst h'
    exact ⟨rfl, rfl, rfl, rfl, rfl, rfl, rfl, hmv, hwv⟩
  · exact absurd h (by simp)

/-! ### Claim theorem C7 -/

/-- C7: whenever the weather fetch completes, the Enrichment Merger's output
is a per-row filterMap of the joined input: a row whose purchase or delivery
timestamp localizes to NaT (ambiguous or non-existent) contributes nothing, a
localized row whose market lookup or weather lookup is unresolved contributes
nothing, and every emitted record carries the resolved market and weather
values in full — `EnrichedRow` has no optional field, so every record in the
final output has all ten fields present; no record is emitted partially
enriched. -/
theorem c7_no_partial_records (fetch : String → String → Except Unit (List (String × ℚ)))
    (net : WParams → Nat → Option RespBody) (locUTC : String → Option String)
    (fmt : String → String) (rows : List JoinedRow)
    (wd : List ((ℚ × ℚ × String) × WeatherVal)) (lg : List (WParams × Nat × Nat))
    (hw : batch_fetch_weather net (weatherInput fmt (localizeRows locUTC rows))
      = Except.ok (wd, lg)) :
    enrich_data fetch net locUTC fmt rows
      = Except.ok (rows.filterMap (fun jr =>
          (localizeRow locUTC jr).bind
            (enrichRow (marketMap fetch locUTC fmt rows) wd fmt))) ∧
    (∀ jr : JoinedRow, locUTC jr.purchase_ts = none ∨ locUTC jr.delivered_ts = none →
      (localizeRow locUTC jr).bind
        (enrichRow (marketMap fetch locUTC fmt rows) wd fmt) = none) ∧
    (∀ lr : LocRow,
      (dictGet (marketMap fetch locUTC fmt rows) (fmt lr.purchase_utc)).bind id = none ∨
        dictGet wd (lr.lat, lr.lng, fmt lr.delivered_utc) = none →
      enrichRow (marketMap fetch locUTC fmt rows) wd fmt lr = none) ∧
    (∀ lr er, enrichRow (marketMap fetch locUTC fmt rows) wd fmt lr = some er →
      (dictGet (marketMap fetch locUTC fmt rows) (fmt lr.purchase_utc)).bind id
        = some er.market ∧
      dictGet wd (lr.lat, lr.lng, fmt lr.delivered_utc)
        = some ⟨er.mean_temp, er.precipitation⟩) := by
  refine ⟨?_, ?_, ?_, ?_⟩
  · unfold enrich_data
    rw [hw]
    dsimp only
    rw [localizeRows, List.filterMap_filterMap]
  · intro jr hnone
    have hl : localizeRow locUTC jr = none := by
      unfold localizeRow
      cases hnone with
      | inl h0 => rw [h0]
      | inr h0 =>
        rw [h0]
        cases locUTC jr.purchase_ts <;> rfl
    rw [hl]
    rfl
  · intro lr hnone
    unfold enrichRow
    cases hnone with
    | inl h0 =>
      rw [h0]
    | inr h0 =>
      rw [h0]
      cases (dictGet (marketMap fetch locUTC fmt rows) (fmt lr.purchase_utc)).bind id <;> rfl
  · intro lr er h
    have hs := enrichRow_some (marketMap fetch locUTC fmt rows) wd fmt lr er h
    exact ⟨hs.2.2.2.2.2.2.2.1, hs.2.2.2.2.2.2.2.2⟩

/-! ### Claim theorem C10 -/

/-- The join-stage fields of an output record. -/
def eFrame (r : EnrichedRow) : String × String × ℚ × ℚ × ℚ :=
  (r.order_id, r.seller_id, r.total_order_value, r.lat, r.lng)

/-- The join-stage fields of a localized row. -/
def lFrame (r : LocRow) : String × String × ℚ × ℚ × ℚ :=
  (r.order_id, r.seller_id, r.total_order_value, r.lat, r.lng)

/-- The join-stage fields of a joined input row. -/
def jFrame (r : JoinedRow) : String × String × ℚ × ℚ × ℚ :=
  (r.order_id, r.seller_id, r.total_order_value, r.lat, r.lng)

theorem map_filterMap_sublist {α β γ : Type} (l : List α) (f : α → Option β)
    (g : β → γ) (h : α → γ) (hfg : ∀ a b, f a = some b → g b = h a) :
    ((l.filterMap f).map g).Sublist (l.map h) := by
  induction l with
  | nil => exact List.Sublist.refl []
  | cons a t ih =>
    rw [List.map_cons, List.filterMap_cons]
    cases hfa : f a with
    | none => exact List.Sublist.cons (h a) ih
    | some b =>
      rw [List.map_cons, hfg a b hfa]
      exact List.Sublist.cons₂ (h a) ih

/-- C10: enrichment never invents rows and never alters join-stage fields:
whenever `enrich_data` completes, every output record comes from a joined
input row with identical order_id, seller_id, total_order_value and delivery
coordinates, and with each timestamp equal to that input row's timestamp
localized to the configured zone and converted to UTC; the output's
join-stage frames form a sublist of the input's frames (distinct input row
per output row, order preserved), and the output is never longer than the
input. -/
theorem c10_enrichment_frame (fetch : String → String → Except Unit (List (String × ℚ)))
    (net : WParams → Nat → Option RespBody) (locUTC : String → Option String)
    (fmt : String → String) (rows : List JoinedRow) (out : List EnrichedRow)
    (h : enrich_data fetch net locUTC fmt rows = Except.ok out) :
    (∀ er ∈ out, ∃ jr ∈ rows,
      er.order_id = jr.order_id ∧ er.seller_id = jr.seller_id ∧
      er.total_order_value = jr.total_order_value ∧ er.lat = jr.lat ∧ er.lng = jr.lng ∧
      locUTC jr.purchase_ts = some er.purchase_utc ∧
      locUTC jr.delivered_ts = some er.delivered_utc) ∧
    out.length ≤ rows.length ∧
    (out.map eFrame).Sublist (rows.map jFrame) := by
  unfold enrich_data at h
  cases hbw : batch_fetch_weather net (weatherInput fmt (localizeRows locUTC rows)) with
  | error e =>
    rw [hbw] at h
    exact absurd h (by simp)
  | ok p =>
    obtain ⟨wd, lg⟩ := p
    rw [hbw] at h
    dsimp only at h
    injection h with h'
    subst h'
    refine ⟨?_, ?_, ?_⟩
    · intro er her
      obtain ⟨lr, hlr, henr⟩ := List.mem_filterMap.mp her
      obtain ⟨jr, hjr, hloc⟩ := List.mem_filterMap.mp hlr
      obtain ⟨l1, l2, l3, l4, l5, l6, l7⟩ := localizeRow_some locUTC jr lr hloc
      obtain ⟨e1, e2, e3, e4, e5, e6, e7, _, _⟩ :=
        enrichRow_some (marketMap fetch locUTC fmt rows) wd fmt lr er henr
      refine ⟨jr, hjr, e1.trans l1, e2.trans l2, e5.trans l3, e6.trans l4, e7.trans l5,
        ?_, ?_⟩
      · rw [l6, e3]
      · rw [l7, e4]
    · exact Nat.le_trans (List.length_filterMap_le _ _) (List.length_filterMap_le _ _)
    · have h1 : (((localizeRows locUTC rows).filterMap
          (enrichRow (marketMap fetch locUTC fmt rows) wd fmt)).map eFrame).Sublist
          ((localizeRows locUTC rows).map lFrame) := by
        apply map_filterMap_sublist
        intro lr er henr
        obtain ⟨e1, e2, e3, e4, e5, e6, e7, _, _⟩ :=
          enrichRow_some (marketMap fetch locUTC fmt rows) wd fmt lr er henr
        unfold eFrame lFrame
        rw [e1, e2, e5, e6, e7]
      have h2 : ((localizeRows locUTC rows).map lFrame).Sublist (rows.map jFrame) := by
        unfold localizeRows
        apply map_filterMap_sublist
        intro jr lr hloc
        obtain ⟨l1, l2, l3, l4, l5, _, _⟩ := localizeRow_some locUTC jr lr hloc
        unfold lFrame jFrame
        rw [l1, l2, l3, l4, l5]
      exact h1.trans h2

/-! ### Concrete data and witnesses for the enrichment claims -/

/-- Identity localization: every timestamp localizes successfully. -/
def exLocUTC : String → Option String := fun s => some s

/-- A date formatter mapping every timestamp to the witness date. -/
def exFmt : String → String := fun _ => "2024-01-01"

/-- A market source knowing the witness date. -/
def exFetch : String → String → Except Unit (List (String × ℚ)) :=
  fun _ _ => Except.ok [("2024-01-01", 5000)]

/-- A single joined row delivered at coordinate (0, 0). -/
def exJoined : List JoinedRow :=
  [⟨"o1", "s1", "2017-01-01 10:00", "2017-01-10 10:00", 60, 0, 0⟩]

/-- The weather dict `batch_fetch_weather exNet` produces on the witness
input. -/
def exWd : List ((ℚ × ℚ × String) × WeatherVal) := [((0, 0, "2024-01-01"), ⟨20, 0⟩)]

/-- The call log of that run. -/
def exLg : List (WParams × Nat × Nat) := [(groupParams (0, 0) "2024-01-01" [], 3, 10)]

/-- Witness for C7 at the concrete run. -/
theorem c7_no_partial_records_w :
    enrich_data exFetch exNet exLocUTC exFmt exJoined
      = Except.ok (exJoined.filterMap (fun jr =>
          (localizeRow exLocUTC jr).bind
            (enrichRow (marketMap exFetch exLocUTC exFmt exJoined) exWd exFmt))) ∧
    (∀ jr : JoinedRow, exLocUTC jr.purchase_ts = none ∨ exLocUTC jr.delivered_ts = none →
      (localizeRow exLocUTC jr).bind
        (enrichRow (marketMap exFetch exLocUTC exFmt exJoined) exWd exFmt) = none) ∧
    (∀ lr : LocRow,
      (dictGet (marketMap exFetch exLocUTC exFmt exJoined) (exFmt lr.purchase_utc)).bind id
          = none ∨
        dictGet exWd (lr.lat, lr.lng, exFmt lr.delivered_utc) = none →
      enrichRow (marketMap exFetch exLocUTC exFmt exJoined) exWd exFmt lr = none) ∧
    (∀ lr er, enrichRow (marketMap exFetch exLocUTC exFmt exJoined) exWd exFmt lr
        = some er →
      (dictGet (marketMap exFetch exLocUTC exFmt exJoined) (exFmt lr.purchase_utc)).bind id
        = some er.market ∧
      dictGet exWd (lr.lat, lr.lng, exFmt lr.delivered_utc)
        = some ⟨er.mean_temp, er.precipitation⟩) :=
  c7_no_partial_records exFetch exNet exLocUTC exFmt exJoined exWd exLg (by rfl)

/-- The enriched output of the witness run. -/
def exOut : List EnrichedRow :=
  [⟨"o1", "s1", "2017-01-01 10:00", "2017-01-10 10:00", 60, 5000, 0, 0, 20, 0⟩]

/-- Witness for C10 at the concrete run. -/
theorem c10_enrichment_frame_w :
    (∀ er ∈ exOut, ∃ jr ∈ exJoined,
      er.order_id = jr.order_id ∧ er.seller_id = jr.seller_id ∧
      er.total_order_value = jr.total_order_value ∧ er.lat = jr.lat ∧ er.lng = jr.lng ∧
      exLocUTC jr.purchase_ts = some er.purchase_utc ∧
      exLocUTC jr.delivered_ts = some er.delivered_utc) ∧
    exOut.length ≤ exJoined.length ∧
    (exOut.map eFrame).Sublist (exJoined.map jFrame) :=
  c10_enrichment_frame exFetch exNet exLocUTC exFmt exJoined exOut (by rfl)

/-! ### Pipeline orchestration (`main`) -/

/-- The staged pipeline body of `main`: load, process geolocations, join,
enrich, write the output. Each stage is a fallible collaborator over an
arbitrary exception type `E`; a stage's `Except.error` is a raised Python
exception. -/
def runPipeline {E A B C D R : Type} (load : Except E A) (proc : A → Except E B)
    (joinStep : A → B → Except E C) (enrichStep : C → Except E D)
    (writeOut : D → Except E R) : Except E R :=
  match load with
  | Except.error e => Except.error e
  | Except.ok a =>
    match proc a with
    | Except.error e => Except.error e
    | Except.ok b =>
      match joinStep a b with
      | Except.error e => Except.error e
      | Except.ok c =>
        match enrichStep c with
        | Except.error e => Except.error e
        | Except.ok d => writeOut d

/-- The `except Exception as e: logging.error(f"ETL failed: {e}"); raise`
handler of `main`: the caught exception is logged and re-raised UNCHANGED
(bare `raise`). -/
def mainHandler {E R : Type} (r : Except E R) : Except E R :=
  match r with
  | Except.ok v => Except.ok v
  | Except.error e => Except.error e

/-- `main()`: the staged pipeline under the try/except-raise wrapper. -/
def main {E A B C D R : Type} (load : Except E A) (proc : A → Except E B)
    (joinStep : A → B → Except E C) (enrichStep : C → Except E D)
    (writeOut : D → Except E R) : Except E R :=
  mainHandler (runPipeline load proc joinStep enrichStep writeOut)

/-- C9: an unexpected failure in any pipeline stage — loading, coordinate
processing, joining, enrichment, or output — aborts the whole run: `main`
re-raises exactly that failure (same exception value, the original cause) to
the invoking process instead of absorbing it. -/
theorem c9_pipeline_failure_reraised {E A B C D R : Type} (load : Except E A)
    (proc : A → Except E B) (joinStep : A → B → Except E C)
    (enrichStep : C → Except E D) (writeOut : D → Except E R) :
    (∀ e, load = Except.error e →
      main load proc joinStep enrichStep writeOut = Except.error e) ∧
    (∀ a e, load = Except.ok a → proc a = Except.error e →
      main load proc joinStep enrichStep writeOut = Except.error e) ∧
    (∀ a b e, load = Except.ok a → proc a = Except.ok b →
      joinStep a b = Except.error e →
      main load proc joinStep enrichStep writeOut = Except.error e) ∧
    (∀ a b c e, load = Except.ok a → proc a = Except.ok b →
      joinStep a b = Except.ok c → enrichStep c = Except.error e →
      main load proc joinStep enrichStep writeOut = Except.error e) ∧
    (∀ a b c d e, load = Except.ok a → proc a = Except.ok b →
      joinStep a b = Except.ok c → enrichStep c = Except.ok d →
      writeOut d = Except.error e →
      main load proc joinStep enrichStep writeOut = Except.error e) := by
  refine ⟨?_, ?_, ?_, ?_, ?_⟩
  · intro e h1
    simp [main, runPipeline, mainHandler, h1]
  · intro a e h1 h2
    simp [main, runPipeline, mainHandler, h1, h2]
  · intro a b e h1 h2 h3
    simp [main, runPipeline, mainHandler, h1, h2, h3]
  · intro a b c e h1 h2 h3 h4
    simp [main, runPipeline, mainHandler, h1, h2, h3, h4]
  · intro a b c d e h1 h2 h3 h4 h5
    simp [main, runPipeline, mainHandler, h1, h2, h3, h4, h5]

/-- Witness for C9: a concrete failing load stage aborts the run with the same
error value. -/
theorem c9_pipeline_failure_reraised_w :
    main (Except.error 7 : Except Nat Unit)
      (fun _ => (Except.ok () : Except Nat Unit))
      (fun _ _ => (Except.ok () : Except Nat Unit))
      (fun _ => (Except.ok () : Except Nat Unit))
      (fun _ => (Except.ok () : Except Nat Unit)) = Except.error 7 :=
  (c9_pipeline_failure_reraised (Except.error 7 : Except Nat Unit)
    (fun _ => (Except.ok () : Except Nat Unit))
    (fun _ _ => (Except.ok () : Except Nat Unit))
    (fun _ => (Except.ok () : Except Nat Unit))
    (fun _ => (Except.ok () : Except Nat Unit))).1 7 rfl

end EtlScript
